import Mathlib

/-!
# Verification of the typefuzz property-based testing core

A shallow embedding of the deterministic random source (xorshift32), the
arbitrary/shrinker data model, the property runner with its
shrink-to-fixed-point loop, and the model runner's two-phase sequence
shrinker, together with theorems settling the specification claims.

Conventions of the embedding:

* A JS `RandomSource` is a closure over a mutable 32-bit state; here a
  source is represented by its state, a `Nat` below `2 ^ 32`, and drawing
  returns the updated state.  A draw's float value is `state / 2 ^ 32`
  (exact in IEEE double since the state has at most 32 significant bits),
  so draws are represented by their 32-bit numerators.
* `Math.floor(rs() * n)` for `n < 2 ^ 21` is exactly `u * n / 2 ^ 32` in
  integer arithmetic (the products stay below `2 ^ 53`, so the double
  computation is exact); the generators embedded here are used with such
  small ranges only.
* Fallible TypeScript code (`throw new RangeError(...)`) is embedded as
  `Except String`.
* The predicate of a property is observed by the runner only through
  `tryFailure(predicate, value).failed`, which is `true` iff the predicate
  returned `false` or threw; the embedding takes that observation
  `fails : T → Bool` directly.  The `error` payload carried alongside is
  dropped: no claim below depends on it and it does not appear in the
  formatted failure report.
* `scoreValue` and the JS truthiness test `!best.next` dispatch on the
  runtime type of the value; the embedding takes them as per-type
  parameters `score : T → Nat` and `falsy : T → Bool` (for numbers
  `falsy` is `· = 0`, for strings `· = ""`).
-/

namespace Typefuzz

/-- `2 ^ 32`, the size of the xorshift32 state space. -/
def U32 : Nat := 4294967296

/-- One xorshift32 state update, from `createSeededRandomSource`:
`state ^= state << 13; state ^= state >>> 17; state ^= state << 5`,
on unsigned 32-bit patterns. -/
def xorshift32 (s : Nat) : Nat :=
  let a := s ^^^ ((s * 8192) % U32)
  let b := a ^^^ (a / 131072)
  b ^^^ ((b * 32) % U32)

/-- `createSeededRandomSource(seed)`: the source's initial state.
`seed | 0` keeps the low 32 bits (pattern `seed % 2 ^ 32`) and a zero
state is remapped to the nonzero constant `0x9e3779b9`. -/
def createSeededRandomSource (seed : Nat) : Nat :=
  let state := seed % U32
  if state = 0 then 2654435769 else state

/-- One draw from a source: the state advances and the drawn 32-bit
numerator equals the new state (`(state >>> 0) / 0x100000000`). -/
def draw (s : Nat) : Nat × Nat :=
  let s1 := xorshift32 s
  (s1, s1)

/-- The numerators of the first `k` draws from a source with state `s`. -/
def drawsList (s : Nat) : Nat → List Nat
  | 0 => []
  | k + 1 =>
    let (u, s1) := draw s
    u :: drawsList s1 k

/-- `forkRandomSource(parent)`: draws once from the parent and seeds a
child with the drawn value.  `Math.floor(parent() * 0x100000000)` recovers
exactly the 32-bit numerator of the draw.  Returns the child's initial
state together with the advanced parent state. -/
def forkRandomSource (s : Nat) : Nat × Nat :=
  let (u, s1) := draw s
  (createSeededRandomSource u, s1)

/-- `randomInt(randomSource, min, max) = Math.floor(rs() * (max - min + 1)) + min`
expressed on the drawn numerator `u`; exact for spans below `2 ^ 21`. -/
def randomIntVal (u : Nat) (min max : Int) : Int :=
  (u : Int) * (max - min + 1) / (U32 : Int) + min

/-- `gen.int(min, max)`'s generator body
(`Math.floor(randomSource() * (max - min + 1)) + min`), drawing once. -/
def genIntGenerate (min max : Int) (s : Nat) : Int × Nat :=
  let (u, s1) := draw s
  (randomIntVal u min max, s1)

/-- The loop of `shrinkInt`: repeatedly move `current` halfway toward
`target` (`Math.floor` above the target, `Math.ceil` below), stopping when
the target is reached or the next step leaves `[min, max]`.  Note that for
the divisor `2`, `Int` division `/` is floor division, matching
`Math.floor`, and `Math.ceil(x / 2) = -Math.floor(-x / 2)`.  The while
loop strictly decreases `(current - target).natAbs` each pass, so the
structural `fuel` argument — initialised to that measure by `shrinkInt`,
which `shrinkIntGo_fuel` below proves sufficient — never cuts it short. -/
def shrinkIntGo (min max target : Int) : Nat → Int → List Int
  | 0, _ => []
  | fuel + 1, current =>
    if current = target then []
    else
      let next := if target < current then (current + target) / 2 else -(-(current + target) / 2)
      if next < min ∨ max < next then []
      else next :: shrinkIntGo min max target fuel next

/-- `shrinkInt(value, min, max)`: no candidates when the value is out of
range; otherwise bisect toward `0` if `0 ∈ [min, max]`, else toward `min`. -/
def shrinkInt (value min max : Int) : List Int :=
  if value < min ∨ max < value then []
  else
    let target := if min ≤ 0 ∧ 0 ≤ max then 0 else min
    shrinkIntGo min max target (value - target).natAbs value

/-- JS `value.slice(0, length)`: the prefix of the first `length`
characters (code units; all strings in play are one code unit per char). -/
def jsSlice (value : String) (length : Nat) : String :=
  String.mk (value.data.take length)

/-- The loop of `shrinkString`: yield prefixes of halving lengths.  The
length strictly decreases each pass, so the structural `fuel` —
initialised to the string length by `shrinkString` and proved sufficient
by `shrinkStringGo_fuel` — never cuts the loop short. -/
def shrinkStringGo (value : String) : Nat → Nat → List String
  | 0, _ => []
  | fuel + 1, length =>
    if length = 0 then []
    else jsSlice value length :: shrinkStringGo value fuel (length / 2)

/-- `shrinkString(value)` from `shrink-utils`: the empty string, then
prefixes of lengths `⌊len/2⌋, ⌊len/4⌋, …` down to (but excluding) 0. -/
def shrinkString (value : String) : List String :=
  if value.length = 0 then []
  else "" :: shrinkStringGo value value.length (value.length / 2)

/-- The generation charset of `gen.string`. -/
def genCharset : String := "abcdefghijklmnopqrstuvwxyz0123456789"

/-- `chars[Math.floor(randomSource() * chars.length)]` on numerator `u`. -/
def randomChar (u : Nat) : Char :=
  genCharset.toList.getD (u * 36 / U32) 'a'

/-- The character draws of `gen.string`'s generator
(`Array.from({length}, () => chars[...])`). -/
def genStringChars (s : Nat) : Nat → List Char × Nat
  | 0 => ([], s)
  | n + 1 =>
    let (u, s1) := draw s
    let (rest, s2) := genStringChars s1 n
    (randomChar u :: rest, s2)

/-- `gen.string(length)`'s generator body. -/
def genStringGenerate (length : Nat) (s : Nat) : String × Nat :=
  let (cs, s1) := genStringChars s length
  (String.mk cs, s1)

/-- An `Arbitrary<T>`: a generator (state-passing on the source state)
paired with a shrinker.  Shrink candidate sequences are materialised to a
`List` exactly as the runner does with `Array.from`. -/
structure Arbitrary (T : Type) where
  generate : Nat → T × Nat
  shrink : T → List T

/-- The `Arbitrary<T> | Gen<T>` union accepted by the runners. -/
inductive ArbInput (T : Type) where
  | arb (a : Arbitrary T)
  | genOnly (g : Nat → T × Nat)

/-- `normalizeArbitrary`: a bare generator function gets an empty shrinker. -/
def normalizeArbitrary {T : Type} : ArbInput T → Arbitrary T
  | .genOnly g => ⟨g, fun _ => []⟩
  | .arb a => a

/-- `gen.int(min, max)` (parameter validation by `assertRange` — finiteness
and `min ≤ max` — is a constructor-time `RangeError` not exercised by the
claims and omitted here). -/
def genInt (min max : Int) : Arbitrary Int :=
  ⟨genIntGenerate min max, fun value => shrinkInt value min max⟩

/-- `gen.string(length)` (constructor-time length validation omitted as
for `genInt`). -/
def genString (length : Nat) : Arbitrary String :=
  ⟨genStringGenerate length, fun value => shrinkString value⟩

/-- A JS `number` as the config-validation code observes it: a finite
rational, or one of the non-finite values. -/
inductive JsNum where
  | rat (q : ℚ)
  | nan
  | inf
  | negInf

/-- `Number.isFinite`. -/
def JsNum.isFinite : JsNum → Bool
  | .rat _ => true
  | _ => false

/-- `Number.isInteger`. -/
def JsNum.isInteger : JsNum → Bool
  | .rat q => q.den == 1
  | _ => false

/-- The JS comparison `x <= 0` (false on `NaN`). -/
def JsNum.leZero : JsNum → Bool
  | .rat q => decide (q ≤ 0)
  | .negInf => true
  | _ => false

/-- The numeric value of a validated positive integer. -/
def JsNum.toPosNat : JsNum → Nat
  | .rat q => q.num.toNat
  | _ => 0

/-- Truncation toward zero (`Math.trunc`, the first step of `>>> 0`). -/
def jsTrunc (q : ℚ) : Int :=
  if 0 ≤ q then ⌊q⌋ else ⌈q⌉

/-- JS `ToUint32`: truncate, then reduce modulo `2 ^ 32` (non-negative). -/
def toUint32 (q : ℚ) : Nat :=
  (jsTrunc q % (U32 : Int)).toNat

/-- `normalizeSeed`: a non-number or non-finite seed falls back to the
time-derived `Date.now() >>> 0`, taken here as a parameter `now`;
otherwise `seed >>> 0`. -/
def normalizeSeed (now : Nat) : Option JsNum → Nat
  | some (.rat q) => toUint32 q
  | some _ => now % U32
  | none => now % U32

/-- `normalizeRuns`: default 100; must be a finite positive integer. -/
def normalizeRuns (runs : Option JsNum) : Except String Nat :=
  let resolved := runs.getD (.rat 100)
  if !resolved.isFinite || resolved.leZero || !resolved.isInteger then
    .error "runs must be a positive integer"
  else .ok resolved.toPosNat

/-- `normalizeMaxShrinks`: default 1000; must be a finite positive integer. -/
def normalizeMaxShrinks (maxShrinks : Option JsNum) : Except String Nat :=
  let resolved := maxShrinks.getD (.rat 1000)
  if !resolved.isFinite || resolved.leZero || !resolved.isInteger then
    .error "maxShrinks must be a positive integer"
  else .ok resolved.toPosNat

/-- `RunConfig`. -/
structure RunConfig where
  seed : Option JsNum := none
  runs : Option JsNum := none

/-- `PropertyConfig`. -/
structure PropertyConfig extends RunConfig where
  maxShrinks : Option JsNum := none

/-- `RunState`: normalized run config plus the seeded source's state. -/
structure RunState where
  runs : Nat
  seed : Nat
  randomSource : Nat

/-- `createRunState(config)`. -/
def createRunState (now : Nat) (config : RunConfig) : Except String RunState :=
  let seed := normalizeSeed now config.seed
  match normalizeRuns config.runs with
  | .error e => .error e
  | .ok runs => .ok ⟨runs, seed, createSeededRandomSource seed⟩

/-- `PropertyFailure` (without the `error` payload, see the header). -/
structure PropertyFailure (T : Type) where
  seed : Nat
  runs : Nat
  iterations : Nat
  shrinks : Nat
  counterexample : T

/-- The candidate scan of `selectBestCandidate`: evaluate candidates in
order while budget remains, count every evaluation, and keep the failing
candidate of strictly smallest score (first wins ties). -/
def selectBestGo {T : Type} (fails : T → Bool) (score : T → Nat) (remaining : Nat) :
    List T → Option (T × Nat) → Nat → Option T × Nat
  | [], best, shrinks => (best.map Prod.fst, shrinks)
  | candidate :: rest, best, shrinks =>
    if remaining ≤ shrinks then (best.map Prod.fst, shrinks)
    else if fails candidate then
      let candidateScore := score candidate
      let best1 :=
        match best with
        | none => some (candidate, candidateScore)
        | some (b, bs) =>
          if candidateScore < bs then some (candidate, candidateScore) else some (b, bs)
      selectBestGo fails score remaining rest best1 (shrinks + 1)
    else selectBestGo fails score remaining rest best (shrinks + 1)

/-- `selectBestCandidate(arbitrary, predicate, current, remainingShrinks)`. -/
def selectBestCandidate {T : Type} (arb : Arbitrary T) (fails : T → Bool) (score : T → Nat)
    (current : T) (remaining : Nat) : Option T × Nat :=
  selectBestGo fails score remaining (arb.shrink current) none 0

/-- The accumulator of the shrink fixed-point loop. -/
structure ShrinkOutcome (T : Type) where
  current : T
  shrinks : Nat

/-- The round loop of `shrinkUntilFixedPoint`
(`for (round = 0; round < maxShrinks; round++)`, embedded structurally on
the remaining round count).  Note the JS truthiness test
`if (!best.next) break`: a round whose best candidate is falsy (absent,
or e.g. the number 0 or the empty string) is abandoned and its attempt
count is *not* added to the total. -/
def shrinkFixGo {T : Type} (arb : Arbitrary T) (fails : T → Bool) (score : T → Nat)
    (falsy : T → Bool) (maxShrinks : Nat) : Nat → T → Nat → ShrinkOutcome T
  | 0, current, total => ⟨current, total⟩
  | rounds + 1, current, total =>
    if maxShrinks ≤ total then ⟨current, total⟩
    else
      let best := selectBestCandidate arb fails score current (maxShrinks - total)
      match best.1 with
      | none => ⟨current, total⟩
      | some next =>
        if falsy next then ⟨current, total⟩
        else shrinkFixGo arb fails score falsy maxShrinks rounds next (total + best.2)

/-- `shrinkUntilFixedPoint(arbitrary, predicate, initial, maxShrinks)`. -/
def shrinkUntilFixedPoint {T : Type} (arb : Arbitrary T) (fails : T → Bool) (score : T → Nat)
    (falsy : T → Bool) (initial : T) (maxShrinks : Nat) : ShrinkOutcome T :=
  shrinkFixGo arb fails score falsy maxShrinks maxShrinks initial 0

/-- The trial loop of `runProperty`
(`for (iteration = 1; iteration <= runs; iteration++)`, embedded
structurally on the remaining trial count `rem`, with `iteration` carried
for reporting): fork a per-trial source, generate, test; on the first
failure shrink and report, otherwise continue. -/
def runPropertyLoop {T : Type} (arb : Arbitrary T) (fails : T → Bool) (score : T → Nat)
    (falsy : T → Bool) (seed runs maxShrinks : Nat) :
    Nat → Nat → Nat → Option (PropertyFailure T)
  | 0, _, _ => none
  | rem + 1, iteration, parent =>
    let (childInit, parent1) := forkRandomSource parent
    let value := (arb.generate childInit).1
    if fails value then
      let sr := shrinkUntilFixedPoint arb fails score falsy value maxShrinks
      some ⟨seed, runs, iteration, sr.shrinks, sr.current⟩
    else runPropertyLoop arb fails score falsy seed runs maxShrinks rem (iteration + 1) parent1

/-- `runProperty(arbitraryInput, predicate, config)`: `none` is `{ok: true}`,
`some failure` is `{ok: false, failure}`. -/
def runProperty {T : Type} (now : Nat) (input : ArbInput T) (fails : T → Bool)
    (score : T → Nat) (falsy : T → Bool) (config : PropertyConfig) :
    Except String (Option (PropertyFailure T)) :=
  match createRunState now config.toRunConfig with
  | .error e => .error e
  | .ok rs =>
    match normalizeMaxShrinks config.maxShrinks with
    | .error e => .error e
    | .ok maxShrinks =>
      .ok (runPropertyLoop (normalizeArbitrary input) fails score falsy rs.seed rs.runs
        maxShrinks rs.runs 1 rs.randomSource)

/-- `ReplayConfig`: a `PropertyConfig` with a mandatory seed. -/
structure ReplayConfig where
  seed : JsNum
  runs : Option JsNum := none
  maxShrinks : Option JsNum := none

/-- `runReplay(arbitraryInput, predicate, config)`: `runProperty` with the
replay seed spliced into the config. -/
def runReplay {T : Type} (now : Nat) (input : ArbInput T) (fails : T → Bool)
    (score : T → Nat) (falsy : T → Bool) (config : ReplayConfig) :
    Except String (Option (PropertyFailure T)) :=
  runProperty now input fails score falsy ⟨⟨some config.seed, config.runs⟩, config.maxShrinks⟩

/-- `formatFailure(failure)`; `render` stands for the type-dispatching
`formatValue` (`JSON.stringify(value, null, 2)`). -/
def formatFailure {T : Type} (render : T → String) (f : PropertyFailure T) : String :=
  "property failed after " ++ toString f.iterations ++ "/" ++ toString f.runs ++ " runs\n" ++
    "seed: " ++ toString f.seed ++ "\n" ++
    "shrinks: " ++ toString f.shrinks ++ "\n" ++
    "counterexample: " ++ render f.counterexample

/-- `formatReplaySnippet(seed, runs)`. -/
def formatReplaySnippet (seed runs : Nat) : String :=
  "replay: fuzz.assert(arbitrary, predicate, \x7b seed: " ++ toString seed ++
    ", runs: " ++ toString runs ++ " \x7d)"

/-- `formatFailureWithReplay(failure)`. -/
def formatFailureWithReplay {T : Type} (render : T → String) (f : PropertyFailure T) : String :=
  formatFailure render f ++ "\n" ++ formatReplaySnippet f.seed f.runs


/-! ### The specification-side indexed trial loop

The spec states that each trial forks its own stream before drawing, so
the value tested in trial `i` is a function of the seed and `i` alone.
The definitions below express that closed form; `runProperty` is proved
equal to this indexed runner. -/

/-- The top-level source's state after `i` draws. -/
def parentState (s0 : Nat) : Nat → Nat
  | 0 => s0
  | i + 1 => xorshift32 (parentState s0 i)

/-- Closed form of the value tested in trial `i` (1-based): the trial's
child source is seeded by the top-level source's `i`-th draw. -/
def trialValue {T : Type} (arb : Arbitrary T) (s0 i : Nat) : T :=
  (arb.generate (createSeededRandomSource (parentState s0 i))).1

/-- Modelled from the spec: the trial loop with each trial's value taken
from the closed form `trialValue`, threading no random-source state
between trials. -/
def runPropertyIndexedLoop {T : Type} (arb : Arbitrary T) (fails : T → Bool) (score : T → Nat)
    (falsy : T → Bool) (seed runs maxShrinks s0 : Nat) :
    Nat → Nat → Option (PropertyFailure T)
  | 0, _ => none
  | rem + 1, iteration =>
    let value := trialValue arb s0 iteration
    if fails value then
      let sr := shrinkUntilFixedPoint arb fails score falsy value maxShrinks
      some ⟨seed, runs, iteration, sr.shrinks, sr.current⟩
    else runPropertyIndexedLoop arb fails score falsy seed runs maxShrinks s0 rem (iteration + 1)

/-- Modelled from the spec: `runProperty` with the indexed trial loop. -/
def runPropertyIndexed {T : Type} (now : Nat) (input : ArbInput T) (fails : T → Bool)
    (score : T → Nat) (falsy : T → Bool) (config : PropertyConfig) :
    Except String (Option (PropertyFailure T)) :=
  match createRunState now config.toRunConfig with
  | .error e => .error e
  | .ok rs =>
    match normalizeMaxShrinks config.maxShrinks with
    | .error e => .error e
    | .ok maxShrinks =>
      .ok (runPropertyIndexedLoop (normalizeArbitrary input) fails score falsy rs.seed rs.runs
        maxShrinks rs.randomSource rs.runs 1)

/-! ### Fuel sufficiency of the structural loop embeddings -/

theorem shrinkIntGo_next_decreases (target current : Int) (hc : current ≠ target) :
    ((if target < current then (current + target) / 2 else -(-(current + target) / 2)) - target).natAbs
      < (current - target).natAbs := by
  split <;> omega

/-- Any fuel at least `(current - target).natAbs` computes the same
candidate list: the bisection loop needs at most that many passes. -/
theorem shrinkIntGo_fuel (min max target : Int) :
    ∀ fuel1 fuel2 current, (current - target).natAbs ≤ fuel1 →
      (current - target).natAbs ≤ fuel2 →
      shrinkIntGo min max target fuel1 current = shrinkIntGo min max target fuel2 current := by
  intro fuel1
  induction fuel1 with
  | zero =>
    intro fuel2 current h1 _
    have hc : current = target := by omega
    cases fuel2 with
    | zero => rfl
    | succ f2 => simp [shrinkIntGo, hc]
  | succ f ih =>
    intro fuel2 current h1 h2
    cases fuel2 with
    | zero =>
      have hc : current = target := by omega
      simp [shrinkIntGo, hc]
    | succ f2 =>
      by_cases hc : current = target
      · simp [shrinkIntGo, hc]
      · have hdec := shrinkIntGo_next_decreases target current hc
        simp only [shrinkIntGo, if_neg hc]
        by_cases hr : (if target < current then (current + target) / 2
            else -(-(current + target) / 2)) < min ∨
            max < (if target < current then (current + target) / 2 else -(-(current + target) / 2))
        · simp only [if_pos hr]
        · simp only [if_neg hr]
          rw [ih f2 _ (by omega) (by omega)]

/-- Any fuel at least `length` computes the same prefix list: the halving
loop needs at most `length` passes. -/
theorem shrinkStringGo_fuel (value : String) :
    ∀ fuel1 fuel2 length, length ≤ fuel1 → length ≤ fuel2 →
      shrinkStringGo value fuel1 length = shrinkStringGo value fuel2 length := by
  intro fuel1
  induction fuel1 with
  | zero =>
    intro fuel2 length h1 _
    have hl : length = 0 := by omega
    cases fuel2 with
    | zero => rfl
    | succ f2 => simp [shrinkStringGo, hl]
  | succ f ih =>
    intro fuel2 length h1 h2
    cases fuel2 with
    | zero =>
      have hl : length = 0 := by omega
      simp [shrinkStringGo, hl]
    | succ f2 =>
      by_cases hl : length = 0
      · simp [shrinkStringGo, hl]
      · simp only [shrinkStringGo, if_neg hl]
        rw [ih f2 (length / 2) (by omega) (by omega)]

/-! ### Helper lemmas on the property runner -/

/-- The threaded trial loop computes the indexed one: the parent stream
advances by exactly one draw per trial (the fork), independently of the
generator's own draws on the child. -/
theorem runPropertyLoop_eq_indexed {T : Type} (arb : Arbitrary T) (fails : T → Bool)
    (score : T → Nat) (falsy : T → Bool) (seed runs maxShrinks s0 : Nat) :
    ∀ rem j, runPropertyLoop arb fails score falsy seed runs maxShrinks rem (j + 1)
        (parentState s0 j)
      = runPropertyIndexedLoop arb fails score falsy seed runs maxShrinks s0 rem (j + 1) := by
  intro rem
  induction rem with
  | zero => intro j; rfl
  | succ r ih =>
    intro j
    have hfork : forkRandomSource (parentState s0 j)
        = (createSeededRandomSource (parentState s0 (j + 1)), parentState s0 (j + 1)) := by
      simp [forkRandomSource, draw, parentState]
    simp only [runPropertyLoop, runPropertyIndexedLoop, hfork, trialValue]
    by_cases hf : fails ((arb.generate (createSeededRandomSource (parentState s0 (j + 1)))).1)
    · simp only [hf, if_true]
    · simpa only [hf, if_false] using ih (j + 1)

/-- What a reported failure of the indexed loop contains. -/
theorem runPropertyIndexedLoop_some {T : Type} (arb : Arbitrary T) (fails : T → Bool)
    (score : T → Nat) (falsy : T → Bool) (seed runs maxShrinks s0 : Nat) :
    ∀ rem iteration f,
      runPropertyIndexedLoop arb fails score falsy seed runs maxShrinks s0 rem iteration
        = some f →
      f.seed = seed ∧ f.runs = runs ∧ fails (trialValue arb s0 f.iterations) = true ∧
        f.shrinks = (shrinkUntilFixedPoint arb fails score falsy
          (trialValue arb s0 f.iterations) maxShrinks).shrinks ∧
        f.counterexample = (shrinkUntilFixedPoint arb fails score falsy
          (trialValue arb s0 f.iterations) maxShrinks).current := by
  intro rem
  induction rem with
  | zero => intro iteration f h; exact absurd h (by simp [runPropertyIndexedLoop])
  | succ r ih =>
    intro iteration f h
    rw [runPropertyIndexedLoop] at h
    by_cases hf : fails (trialValue arb s0 iteration)
    · simp only [hf, if_true] at h
      cases h
      exact ⟨rfl, rfl, hf, rfl, rfl⟩
    · simp only [hf, if_false] at h
      exact ih (iteration + 1) f h

/-- An empty shrinker makes the fixed-point loop a no-op. -/
theorem shrinkUntilFixedPoint_empty {T : Type} (arb : Arbitrary T) (fails : T → Bool)
    (score : T → Nat) (falsy : T → Bool) (initial : T) (maxShrinks : Nat)
    (hsh : arb.shrink initial = []) :
    shrinkUntilFixedPoint arb fails score falsy initial maxShrinks = ⟨initial, 0⟩ := by
  cases maxShrinks with
  | zero => rfl
  | succ m =>
    simp [shrinkUntilFixedPoint, shrinkFixGo, selectBestCandidate, hsh, selectBestGo]

/-- The candidate scan never spends more than the remaining budget. -/
theorem selectBestGo_le {T : Type} (fails : T → Bool) (score : T → Nat) (remaining : Nat) :
    ∀ cands (best : Option (T × Nat)) shrinks, shrinks ≤ remaining →
      (selectBestGo fails score remaining cands best shrinks).2 ≤ remaining := by
  intro cands
  induction cands with
  | nil => intro best shrinks h; exact h
  | cons c rest ih =>
    intro best shrinks h
    rw [selectBestGo]
    by_cases hr : remaining ≤ shrinks
    · simpa [hr] using h
    · simp only [if_neg hr]
      by_cases hf : fails c
      · simp only [hf, if_true]
        exact ih _ (shrinks + 1) (by omega)
      · simp only [hf, if_false]
        exact ih _ (shrinks + 1) (by omega)

/-- The fixed-point loop never spends more than `maxShrinks` attempts. -/
theorem shrinkFixGo_le {T : Type} (arb : Arbitrary T) (fails : T → Bool) (score : T → Nat)
    (falsy : T → Bool) (maxShrinks : Nat) :
    ∀ rounds current total, total ≤ maxShrinks →
      (shrinkFixGo arb fails score falsy maxShrinks rounds current total).shrinks ≤ maxShrinks := by
  intro rounds
  induction rounds with
  | zero => intro current total h; exact h
  | succ r ih =>
    intro current total h
    rw [shrinkFixGo]
    by_cases ht : maxShrinks ≤ total
    · simpa [ht] using h
    · simp only [if_neg ht]
      have hsel := selectBestGo_le fails score (maxShrinks - total)
        (arb.shrink current) none 0 (by omega)
      cases hb : (selectBestCandidate arb fails score current (maxShrinks - total)).1 with
      | none => exact h
      | some next =>
        by_cases hfl : falsy next
        · simp only [hfl, if_true]; exact h
        · simp only [hfl, if_false]
          refine ih next (total + (selectBestCandidate arb fails score current
            (maxShrinks - total)).2) ?_
          have : (selectBestCandidate arb fails score current (maxShrinks - total)).2
              ≤ maxShrinks - total := hsel
          omega

/-- `shrinkUntilFixedPoint` respects the budget. -/
theorem shrinkUntilFixedPoint_le {T : Type} (arb : Arbitrary T) (fails : T → Bool)
    (score : T → Nat) (falsy : T → Bool) (initial : T) (maxShrinks : Nat) :
    (shrinkUntilFixedPoint arb fails score falsy initial maxShrinks).shrinks ≤ maxShrinks :=
  shrinkFixGo_le arb fails score falsy maxShrinks maxShrinks initial 0 (Nat.zero_le _)

/-- Every in-range bound check of the bisection loop is enforced before a
candidate is yielded. -/
theorem shrinkIntGo_mem_range (min max target : Int) :
    ∀ fuel current c, c ∈ shrinkIntGo min max target fuel current → min ≤ c ∧ c ≤ max := by
  intro fuel
  induction fuel with
  | zero => intro current c h; exact absurd h (by simp [shrinkIntGo])
  | succ f ih =>
    intro current c h
    rw [shrinkIntGo] at h
    by_cases hc : current = target
    · exact absurd h (by simp [hc])
    · simp only [if_neg hc] at h
      by_cases hr : (if target < current then (current + target) / 2
          else -(-(current + target) / 2)) < min ∨
          max < (if target < current then (current + target) / 2 else -(-(current + target) / 2))
      · rw [if_pos hr] at h
        exact absurd h (List.not_mem_nil c)
      · simp only [if_neg hr, List.mem_cons] at h
        cases h with
        | inl he => subst he; omega
        | inr ht => exact ih _ c ht

/-- Every string shrink candidate of the halving loop is strictly shorter
than the original once the loop starts below the original length. -/
theorem shrinkStringGo_mem_lt (value : String) :
    ∀ fuel length c, length < value.length → c ∈ shrinkStringGo value fuel length →
      c.length < value.length := by
  intro fuel
  induction fuel with
  | zero => intro length c _ h; exact absurd h (by simp [shrinkStringGo])
  | succ f ih =>
    intro length c hlen h
    rw [shrinkStringGo] at h
    by_cases hl : length = 0
    · exact absurd h (by simp [hl])
    · simp only [if_neg hl, List.mem_cons] at h
      cases h with
      | inl he =>
        subst he
        show (String.mk (value.data.take length)).length < value.length
        have : (value.data.take length).length = Min.min length value.data.length :=
          List.length_take ..
        have hv : value.length = value.data.length := rfl
        simp only [String.length, List.length_take]
        omega
      | inr ht => exact ih (length / 2) c (by omega) ht

/-- The generated characters of `gen.string` number exactly `length`. -/
theorem genStringChars_length (s : Nat) : ∀ n, ((genStringChars s n).1).length = n := by
  intro n
  induction n generalizing s with
  | zero => rfl
  | succ m ih => simp [genStringChars, ih]


/-- Projections of a successful `createRunState`. -/
theorem createRunState_ok (now : Nat) (cfg : RunConfig) (rs : RunState)
    (h : createRunState now cfg = .ok rs) :
    rs.seed = normalizeSeed now cfg.seed
    ∧ rs.randomSource = createSeededRandomSource (normalizeSeed now cfg.seed)
    ∧ normalizeRuns cfg.runs = .ok rs.runs := by
  rw [createRunState] at h
  cases hr : normalizeRuns cfg.runs with
  | error e => rw [hr] at h; exact absurd h (by simp)
  | ok runs =>
    rw [hr] at h
    cases h
    exact ⟨rfl, rfl, rfl⟩

/-- A list is constant when all of its members are equal. -/
def constantList (l : List Nat) : Prop := ∀ x ∈ l, ∀ y ∈ l, x = y

/-! ### Claim theorems (property side) -/

/-- C1: for every seed and count, two independently created sources seeded
alike produce identical draw sequences, and running the replay entry point
twice with the same arbitrary, predicate observation, seed and runs yields
identical results and byte-identical formatted failure reports. -/
theorem claim_c1_replay_determinism :
    (∀ seed k,
      drawsList (createSeededRandomSource seed) k
        = drawsList (createSeededRandomSource seed) k)
    ∧ (∀ (T : Type) (now : Nat) (input : ArbInput T) (fails : T → Bool) (score : T → Nat)
        (falsy : T → Bool) (config : ReplayConfig) (render : T → String),
        runReplay now input fails score falsy config = runReplay now input fails score falsy config
        ∧ (runReplay now input fails score falsy config).map
            (Option.map (formatFailureWithReplay render))
          = (runReplay now input fails score falsy config).map
            (Option.map (formatFailureWithReplay render))) :=
  ⟨fun _ _ => rfl, fun _ _ _ _ _ _ _ _ => ⟨rfl, rfl⟩⟩

/-- C2: the property runner forks an isolated stream for each trial before
generating, so it computes exactly the indexed runner in which trial `i`'s
value is the closed form `trialValue` of the seed and `i` alone —
unaffected by how many draws earlier trials' generators consumed. -/
theorem claim_c2_trial_isolation {T : Type} (now : Nat) (input : ArbInput T)
    (fails : T → Bool) (score : T → Nat) (falsy : T → Bool) (config : PropertyConfig) :
    runProperty now input fails score falsy config
      = runPropertyIndexed now input fails score falsy config := by
  unfold runProperty runPropertyIndexed
  cases createRunState now config.toRunConfig with
  | error e => rfl
  | ok rs =>
    cases normalizeMaxShrinks config.maxShrinks with
    | error e => rfl
    | ok maxShrinks =>
      exact congrArg Except.ok
        (runPropertyLoop_eq_indexed (normalizeArbitrary input) fails score falsy rs.seed rs.runs
          maxShrinks rs.randomSource rs.runs 0)

/-- C3: `run(gen.int(1,100), () => false, {seed:123, runs:1, maxShrinks:100})`
fails with counterexample exactly `1`, the in-range value nearest 0
(after 7 shrink attempts, generated value 94). -/
theorem claim_c3_concrete :
    runProperty 0 (.arb (genInt 1 100)) (fun _ => true) Int.natAbs (fun v => v == 0)
      { seed := some (.rat 123), runs := some (.rat 1), maxShrinks := some (.rat 100) }
      = .ok (some ⟨123, 1, 1, 7, 1⟩) := rfl

/-- C6: a zero seed is remapped to the nonzero constant `0x9e3779b9`, and
the seed-0 stream is not a constant stream: its first `k` draws are never
all equal to one value (for any `k ≥ 2`, the least `k` at which
constancy is non-trivial), and in particular never all zero. -/
theorem claim_c6_zero_seed :
    createSeededRandomSource 0 = 2654435769
    ∧ (∀ k, 2 ≤ k → ¬ constantList (drawsList (createSeededRandomSource 0) k))
    ∧ (∀ k, 1 ≤ k → ¬ ∀ x ∈ drawsList (createSeededRandomSource 0) k, x = 0) := by
  refine ⟨rfl, ?_, ?_⟩
  · intro k hk hconst
    obtain ⟨m, rfl⟩ : ∃ m, k = m + 2 := ⟨k - 2, by omega⟩
    have e1 : drawsList (createSeededRandomSource 0) (m + 2)
        = 1359758873 :: 3761132862 :: drawsList 3761132862 m := rfl
    have h1 : (1359758873 : Nat) ∈ drawsList (createSeededRandomSource 0) (m + 2) := by
      rw [e1]; exact List.mem_cons_self ..
    have h2 : (3761132862 : Nat) ∈ drawsList (createSeededRandomSource 0) (m + 2) := by
      rw [e1]; exact List.mem_cons_of_mem _ (List.mem_cons_self ..)
    exact absurd (hconst _ h1 _ h2) (by decide)
  · intro k hk hzero
    obtain ⟨m, rfl⟩ : ∃ m, k = m + 1 := ⟨k - 1, by omega⟩
    have h1 : (1359758873 : Nat) ∈ drawsList (createSeededRandomSource 0) (m + 1) := by
      have e1 : drawsList (createSeededRandomSource 0) (m + 1)
          = 1359758873 :: drawsList 1359758873 m := rfl
      rw [e1]; exact List.mem_cons_self ..
    exact absurd (hzero _ h1) (by decide)

/-- C6 witness: the theorem applied at `k = 2` and `k = 1`. -/
theorem claim_c6_zero_seed_witness :
    ¬ constantList (drawsList (createSeededRandomSource 0) 2)
    ∧ ¬ ∀ x ∈ drawsList (createSeededRandomSource 0) 1, x = 0 :=
  ⟨claim_c6_zero_seed.2.1 2 (by decide), claim_c6_zero_seed.2.2 1 (by decide)⟩

/-- C7 counterexample: bounds-closure fails for `gen.string(length)`,
whose configured bound is the exact length: the value `"aa"` lies within
`gen.string(2)`'s bounds (its length is the configured 2), but its shrink
candidate `""` does not satisfy that bound. -/
theorem claim_c7_counterexample :
    ("aa" : String).length = 2 ∧ "" ∈ shrinkString "aa" ∧ ¬ (("" : String).length = 2) := by
  exact ⟨rfl, by decide, by decide⟩

/-- C7 amended: shrink candidates of `gen.int(min,max)` always satisfy
`min ≤ c ≤ max`; shrink candidates of `gen.string(length)` are strictly
shorter than the shrunk value (so closure holds for the upper bound
only, not the exact configured length, which every generated value has). -/
theorem claim_c7_amended :
    (∀ (value min max : Int) c, c ∈ shrinkInt value min max → min ≤ c ∧ c ≤ max)
    ∧ (∀ (s : String) c, c ∈ shrinkString s → c.length < s.length)
    ∧ (∀ (length st : Nat), ((genString length).generate st).1.length = length) := by
  refine ⟨?_, ?_, ?_⟩
  · intro value min max c h
    rw [shrinkInt] at h
    by_cases hv : value < min ∨ max < value
    · rw [if_pos hv] at h; exact absurd h (List.not_mem_nil c)
    · rw [if_neg hv] at h
      exact shrinkIntGo_mem_range min max _ _ value c h
  · intro s c h
    rw [shrinkString] at h
    by_cases hl : s.length = 0
    · rw [if_pos hl] at h; exact absurd h (List.not_mem_nil c)
    · rw [if_neg hl] at h
      rcases List.mem_cons.mp h with he | ht
      · subst he
        have h0 : ("" : String).length = 0 := rfl
        omega
      · exact shrinkStringGo_mem_lt s _ _ c (by omega) ht
  · intro length st
    have hlen := genStringChars_length st length
    rcases hgen : genStringChars st length with ⟨cs, s1⟩
    rw [hgen] at hlen
    show (genStringGenerate length st).1.length = length
    rw [genStringGenerate, hgen]
    exact hlen

/-- C7 witness: the amended theorem applied at `shrinkInt 94 1 100 ∋ 47`
and `shrinkString "aa" ∋ "a"`. -/
theorem claim_c7_amended_witness :
    ((1 : Int) ≤ 47 ∧ (47 : Int) ≤ 100) ∧ ("a" : String).length < ("aa" : String).length :=
  ⟨claim_c7_amended.1 94 1 100 47 (by decide), claim_c7_amended.2.1 "aa" "a" (by decide)⟩

/-- C10: a bare generator function is normalized with an empty shrinker,
so a failing run reports exactly 0 shrinks and the originally generated
failing value (the trial's closed-form value) as the counterexample. -/
theorem claim_c10_bare_generator {T : Type} (now : Nat) (g : Nat → T × Nat)
    (fails : T → Bool) (score : T → Nat) (falsy : T → Bool) (config : PropertyConfig)
    (f : PropertyFailure T)
    (h : runProperty now (.genOnly g) fails score falsy config = .ok (some f)) :
    f.shrinks = 0
    ∧ f.counterexample
      = trialValue (normalizeArbitrary (.genOnly g))
          (createSeededRandomSource (normalizeSeed now config.seed)) f.iterations
    ∧ fails f.counterexample = true := by
  rw [runProperty] at h
  cases hcs : createRunState now config.toRunConfig with
  | error e => rw [hcs] at h; exact absurd h (by simp)
  | ok rs =>
    rw [hcs] at h
    cases hms : normalizeMaxShrinks config.maxShrinks with
    | error e => rw [hms] at h; exact absurd h (by simp)
    | ok maxShrinks =>
      rw [hms] at h
      dsimp only at h
      rw [Except.ok.injEq] at h
      have hloop : runPropertyLoop (normalizeArbitrary (.genOnly g)) fails score falsy rs.seed
          rs.runs maxShrinks rs.runs 1 rs.randomSource = some f := h
      obtain ⟨hseed, hrand, -⟩ := createRunState_ok now config.toRunConfig rs hcs
      rw [hrand] at hloop
      have hidx := runPropertyLoop_eq_indexed (normalizeArbitrary (.genOnly g)) fails score falsy
        rs.seed rs.runs maxShrinks (createSeededRandomSource (normalizeSeed now config.seed))
        rs.runs 0
      simp only [Nat.zero_add, parentState] at hidx
      rw [hidx] at hloop
      obtain ⟨-, -, hfails, hshr, hctr⟩ := runPropertyIndexedLoop_some _ fails score falsy
        rs.seed rs.runs maxShrinks _ rs.runs 1 f hloop
      have hempty := shrinkUntilFixedPoint_empty (normalizeArbitrary (.genOnly g)) fails score
        falsy (trialValue (normalizeArbitrary (.genOnly g))
          (createSeededRandomSource (normalizeSeed now config.seed)) f.iterations)
        maxShrinks rfl
      rw [hempty] at hshr hctr
      refine ⟨hshr, hctr, ?_⟩
      rw [hctr]
      exact hfails

/-- C10 witness: the theorem applied to a concrete constantly-0 generator,
an always-failing predicate, seed 1 and runs 1. -/
theorem claim_c10_bare_generator_witness :
    (⟨1, 1, 1, 0, (0 : Int)⟩ : PropertyFailure Int).shrinks = 0
    ∧ (⟨1, 1, 1, 0, (0 : Int)⟩ : PropertyFailure Int).counterexample
      = trialValue (normalizeArbitrary (.genOnly (fun s => ((0 : Int), s))))
          (createSeededRandomSource (normalizeSeed 0 (some (.rat 1)))) 1
    ∧ (fun (_ : Int) => true) (⟨1, 1, 1, 0, (0 : Int)⟩ : PropertyFailure Int).counterexample
      = true :=
  claim_c10_bare_generator 0 (fun s => ((0 : Int), s)) (fun _ => true) Int.natAbs
    (fun v => v == 0) { seed := some (.rat 1), runs := some (.rat 1) }
    ⟨1, 1, 1, 0, 0⟩ rfl


/-! ## The model runner

Embedding of the model-based runner (`runModel`, `executeIteration`,
`replaySequence`, and the two-phase sequence shrinker).  JS objects
mutated in place (`system`, `model`) are threaded functionally; a
command's `run` returns the updated pair together with a thrown error, if
any, and `check` additionally returns its `boolean | void` result.  The
`undefined` parameter passed to commands without an arbitrary is the
runner parameter `undef`.  The unbounded `while` loops of the shrinker
take structural fuel and return `none` when it runs out; termination
(claim C5) is the statement that some fuel always suffices. -/

/-- An `ExecutedStep`. -/
structure MStep (P : Type) where
  commandIndex : Nat
  param : P

/-- An `ExecutionResult`. -/
structure ExecutionResult (E : Type) where
  failed : Bool
  failedStep : Int
  error : Option E

/-- A `Command<Model, System, Param>`. -/
structure MCommand (M S P E : Type) where
  name : String
  arbitrary : Option (ArbInput P)
  precondition : Option (M → Bool)
  run : S → M → P → (S × M) × Option E
  check : S → M → P → (S × M) × Except E (Option Bool)

/-- A `ModelSpec`: `state`/`setup` are fresh-instance factories, embedded
by the values they produce; `teardown` may throw. -/
structure MSpec (M S P E : Type) where
  state : M
  setup : S
  teardown : Option (S → Except E Unit)
  commands : List (MCommand M S P E)

/-- `runStep(cmd, system, model, param)`: a throw from `run`, a throw
from `check`, or `check` returning `false` fails the step. -/
def runStep {M S P E : Type} (cmd : MCommand M S P E) (system : S) (model : M) (param : P) :
    (S × M) × Bool × Option E :=
  let ((s1, m1), thrown) := cmd.run system model param
  match thrown with
  | some e => ((s1, m1), true, some e)
  | none =>
    let ((s2, m2), res) := cmd.check s1 m1 param
    match res with
    | .error e => ((s2, m2), true, some e)
    | .ok (some false) => ((s2, m2), true, none)
    | .ok _ => ((s2, m2), false, none)

/-- `safeTeardown`: swallow any teardown error. -/
def safeTeardown {S E : Type} (teardown : Option (S → Except E Unit)) (system : S) : Unit :=
  match teardown with
  | none => ()
  | some td =>
    match td system with
    | _ => ()

/-- The command loop of `executeIteration`
(`for (let s = 0; s < stepCount; s++)`, embedded structurally on the
remaining count; the loop reads only `spec.commands`, passed as
`commands`).  Returns the recorded steps, the result, the final
system/model pair's system, and the advanced source state. -/
def execLoop {M S P E : Type} (undef : P) (commands : List (MCommand M S P E)) :
    Nat → List (MStep P) → S → M → Nat → List (MStep P) × ExecutionResult E × S × Nat
  | 0, steps, system, _, rng => (steps, ⟨false, -1, none⟩, system, rng)
  | remaining + 1, steps, system, model, rng =>
    let eligible := commands.enum.filter fun p =>
      match p.2.precondition with
      | none => true
      | some pre => pre model
    if eligible.length = 0 then (steps, ⟨false, -1, none⟩, system, rng)
    else
      let (u, rng1) := draw rng
      let k := (randomIntVal u 0 ((eligible.length : Int) - 1)).toNat
      match eligible.get? k with
      | none => (steps, ⟨false, -1, none⟩, system, rng1)
      | some (idx, cmd) =>
        let (param, rng2) :=
          match cmd.arbitrary with
          | some arbIn =>
            let (childInit, rngA) := forkRandomSource rng1
            (((normalizeArbitrary arbIn).generate childInit).1, rngA)
          | none => (undef, rng1)
        let steps1 := steps ++ [⟨idx, param⟩]
        let (sm, failed, err) := runStep cmd system model param
        if failed then (steps1, ⟨true, (steps1.length : Int) - 1, err⟩, sm.1, rng2)
        else execLoop undef commands remaining steps1 sm.1 sm.2 rng2

/-- Output of one iteration: the recorded steps, the execution result,
the final system (the object `safeTeardown` receives in the `finally`
block), and the recorded teardown invocation (`none` when the spec gives
no teardown). -/
structure IterationOut (S P E : Type) where
  steps : List (MStep P)
  result : ExecutionResult E
  system : S
  tdOutcome : Option (Except E Unit)

/-- `executeIteration(spec, randomSource, maxCommands)`: fresh model and
system, a drawn step count in `[1, maxCommands]`, the command loop, and
teardown in the `finally` block. -/
def executeIteration {M S P E : Type} (undef : P) (spec : MSpec M S P E) (rng maxCommands : Nat) :
    IterationOut S P E :=
  let model := spec.state
  let system := spec.setup
  let (u, rng1) := draw rng
  let stepCount := (randomIntVal u 1 (maxCommands : Int)).toNat
  match execLoop undef spec.commands stepCount [] system model rng1 with
  | (steps, result, finalSystem, _) =>
    let _ := safeTeardown spec.teardown finalSystem
    ⟨steps, result, finalSystem, spec.teardown.map fun td => td finalSystem⟩

/-- The step loop of `replaySequence`: replay against the fresh pair; a
step whose precondition now fails aborts the replay as a non-failure. -/
def replayLoop {M S P E : Type} (commands : List (MCommand M S P E)) :
    List (MStep P) → Nat → S → M → ExecutionResult E × S
  | [], _, system, _ => (⟨false, -1, none⟩, system)
  | step :: rest, i, system, model =>
    match commands.get? step.commandIndex with
    | none => (⟨false, -1, none⟩, system)
    | some cmd =>
      if (match cmd.precondition with
          | none => true
          | some pre => pre model) then
        let (sm, failed, err) := runStep cmd system model step.param
        if failed then (⟨true, (i : Int), err⟩, sm.1)
        else replayLoop commands rest (i + 1) sm.1 sm.2
      else (⟨false, -1, none⟩, system)

/-- `replaySequence(spec, steps)`: fresh model/system, the step loop, and
teardown in the `finally` block.  Returns the result, the final system,
and the recorded teardown invocation. -/
def replaySequence {M S P E : Type} (spec : MSpec M S P E) (steps : List (MStep P)) :
    ExecutionResult E × S × Option (Except E Unit) :=
  match replayLoop spec.commands steps 0 spec.setup spec.state with
  | (result, finalSystem) =>
    let _ := safeTeardown spec.teardown finalSystem
    (result, finalSystem, spec.teardown.map fun td => td finalSystem)

/-- A `ShrinkState`. -/
structure ShrinkState (P E : Type) where
  steps : List (MStep P)
  failedStep : Int
  shrinks : Nat
  error : Option E

/-- The inner scan of `shrinkChunks` at a fixed chunk size
(`while (i + chunkSize <= steps.length && shrinks < maxShrinks)`),
fuelled; each recursive call is one loop iteration. -/
def chunkInner {P E : Type} (replay : List (MStep P) → ExecutionResult E) (maxShrinks : Nat) :
    Nat → Nat → Nat → Bool → ShrinkState P E → Option (ShrinkState P E × Bool)
  | 0, _, _, _, _ => none
  | fuel + 1, chunkSize, i, removedInPass, st =>
    if i + chunkSize ≤ st.steps.length ∧ st.shrinks < maxShrinks then
      let candidate := st.steps.take i ++ st.steps.drop (i + chunkSize)
      if candidate.length = 0 then
        chunkInner replay maxShrinks fuel chunkSize (i + 1) removedInPass st
      else
        let result := replay candidate
        if result.failed then
          chunkInner replay maxShrinks fuel chunkSize i true
            ⟨candidate, result.failedStep, st.shrinks + 1, result.error⟩
        else
          chunkInner replay maxShrinks fuel chunkSize (i + 1) removedInPass
            ⟨st.steps, st.failedStep, st.shrinks + 1, st.error⟩
    else some (st, removedInPass)

/-- The outer loop of `shrinkChunks`
(`while (chunkSize >= 1 && shrinks < maxShrinks)`), fuelled: after a pass
with a kept removal the chunk size restarts at half the (shorter) length,
after a barren pass it halves. -/
def chunkOuter {P E : Type} (replay : List (MStep P) → ExecutionResult E) (maxShrinks : Nat) :
    Nat → Nat → Bool → ShrinkState P E → Option (ShrinkState P E × Bool)
  | 0, _, _, _ => none
  | fuel + 1, chunkSize, anyImproved, st =>
    if 1 ≤ chunkSize ∧ st.shrinks < maxShrinks then
      match chunkInner replay maxShrinks fuel chunkSize 0 false st with
      | none => none
      | some (st1, removedInPass) =>
        let chunkSize1 := if removedInPass then st1.steps.length / 2 else chunkSize / 2
        chunkOuter replay maxShrinks fuel chunkSize1 (anyImproved || removedInPass) st1
    else some (st, anyImproved)

/-- `shrinkChunks(state, maxShrinks, replay)`: delta-debugging chunk
removal, entered at chunk size `⌊len/2⌋`.  Returns the updated state and
whether any removal was kept. -/
def shrinkChunks {P E : Type} (replay : List (MStep P) → ExecutionResult E)
    (maxShrinks fuel : Nat) (st : ShrinkState P E) : Option (ShrinkState P E × Bool) :=
  chunkOuter replay maxShrinks fuel (st.steps.length / 2) false st

/-- `state.steps.map((s, idx) => idx === i ? { ...s, param } : s)`. -/
def replaceParamAt {P : Type} (steps : List (MStep P)) (i : Nat) (param : P) : List (MStep P) :=
  steps.enum.map fun p => if p.1 = i then ⟨p.2.commandIndex, param⟩ else p.2

/-- The candidate loop of `shrinkParams` for one step
(`for (const shrunkParam of arb.shrink(step.param))`): stop at the first
candidate whose replay still fails (improvement), or when the budget is
exhausted. -/
def tryCands {P E : Type} (replay : List (MStep P) → ExecutionResult E) (maxShrinks i : Nat) :
    List P → ShrinkState P E → ShrinkState P E × Bool
  | [], st => (st, false)
  | c :: rest, st =>
    if maxShrinks ≤ st.shrinks then (st, false)
    else
      let candidate := replaceParamAt st.steps i c
      let result := replay candidate
      if result.failed then
        (⟨candidate, result.failedStep, st.shrinks + 1, result.error⟩, true)
      else tryCands replay maxShrinks i rest ⟨st.steps, st.failedStep, st.shrinks + 1, st.error⟩

/-- One pass of `shrinkParams` over the step indices
(`for (let i = 0; i < steps.length && shrinks < maxShrinks; i++)`),
embedded structurally on the remaining index count (the callers supply
`steps.length`, which never changes within a pass). -/
def paramScan {M S P E : Type} (replay : List (MStep P) → ExecutionResult E) (maxShrinks : Nat)
    (commands : List (MCommand M S P E)) :
    Nat → Nat → ShrinkState P E → ShrinkState P E × Bool
  | 0, _, st => (st, false)
  | fuel + 1, i, st =>
    if i < st.steps.length ∧ st.shrinks < maxShrinks then
      match st.steps.get? i with
      | none => (st, false)
      | some step =>
        match (commands.get? step.commandIndex).bind (fun cmd => cmd.arbitrary) with
        | none => paramScan replay maxShrinks commands fuel (i + 1) st
        | some arbIn =>
          let arb := normalizeArbitrary arbIn
          match tryCands replay maxShrinks i (arb.shrink step.param) st with
          | (st1, improved) =>
            if improved then (st1, true)
            else paramScan replay maxShrinks commands fuel (i + 1) st1
    else (st, false)

/-- The outer loop of `shrinkParams`
(`while (passImproved && shrinks < maxShrinks)`), fuelled. -/
def shrinkParamsGo {M S P E : Type} (replay : List (MStep P) → ExecutionResult E)
    (maxShrinks : Nat) (commands : List (MCommand M S P E)) :
    Nat → Bool → ShrinkState P E → Option (ShrinkState P E × Bool)
  | 0, _, _ => none
  | fuel + 1, anyImproved, st =>
    if st.shrinks < maxShrinks then
      match paramScan replay maxShrinks commands st.steps.length 0 st with
      | (st1, improved) =>
        if improved then shrinkParamsGo replay maxShrinks commands fuel true st1
        else some (st1, anyImproved)
    else some (st, anyImproved)

/-- The outer fixed-point loop of `shrinkSequence`
(`while (globalImproved && shrinks < maxShrinks)`): chunk removal, then
parameter shrinking, until neither improves or the budget is exhausted. -/
def shrinkSequenceGo {M S P E : Type} (replay : List (MStep P) → ExecutionResult E)
    (maxShrinks : Nat) (commands : List (MCommand M S P E)) :
    Nat → ShrinkState P E → Option (ShrinkState P E)
  | 0, _ => none
  | fuel + 1, st =>
    if st.shrinks < maxShrinks then
      match shrinkChunks replay maxShrinks fuel st with
      | none => none
      | some (st1, improved1) =>
        match shrinkParamsGo replay maxShrinks commands fuel false st1 with
        | none => none
        | some (st2, improved2) =>
          if improved1 || improved2 then shrinkSequenceGo replay maxShrinks commands fuel st2
          else some st2
    else some st

/-- `shrinkSequence(commands, originalSteps, originalResult, maxShrinks, replay)`. -/
def shrinkSequence {M S P E : Type} (replay : List (MStep P) → ExecutionResult E)
    (maxShrinks fuel : Nat) (commands : List (MCommand M S P E))
    (originalSteps : List (MStep P)) (originalResult : ExecutionResult E) :
    Option (ShrinkState P E) :=
  shrinkSequenceGo replay maxShrinks commands fuel
    ⟨originalSteps, originalResult.failedStep, 0, originalResult.error⟩

/-- `normalizeMaxCommands`: default 20; must be a finite positive integer. -/
def normalizeMaxCommands (maxCommands : Option JsNum) : Except String Nat :=
  let resolved := maxCommands.getD (.rat 20)
  if !resolved.isFinite || resolved.leZero || !resolved.isInteger then
    .error "maxCommands must be a positive integer"
  else .ok resolved.toPosNat

/-- `normalizePositiveInt(value, defaultValue, name)`. -/
def normalizePositiveInt (value : Option JsNum) (defaultValue : ℚ) (name : String) :
    Except String Nat :=
  let resolved := value.getD (.rat defaultValue)
  if !resolved.isFinite || resolved.leZero || !resolved.isInteger then
    .error (name ++ " must be a positive integer")
  else .ok resolved.toPosNat

/-- `ModelConfig`. -/
structure ModelConfig extends RunConfig where
  maxCommands : Option JsNum := none
  maxShrinks : Option JsNum := none

/-- A `ModelFailure` (`sequence` holds name/param pairs). -/
structure ModelFailure (P E : Type) where
  seed : Nat
  runs : Nat
  iterations : Nat
  shrinks : Nat
  sequence : List (String × P)
  failedStep : Int
  error : Option E

/-- `buildFailure(commands, shrunk, seed, runs, iteration)`. -/
def buildFailure {M S P E : Type} (commands : List (MCommand M S P E))
    (shrunk : ShrinkState P E) (seed runs iteration : Nat) : ModelFailure P E :=
  ⟨seed, runs, iteration, shrunk.shrinks,
    shrunk.steps.map fun s => ((commands.get? s.commandIndex).elim "" (·.name), s.param),
    shrunk.failedStep, shrunk.error⟩

/-- The outcome of a fuelled model run: a thrown configuration error
(`RangeError`), a result (`none` = `{ok: true}`, `some failure` =
`{ok: false, failure}` — at the `assertModel` boundary, the thrown
assertion error carrying the failure), or fuel exhaustion of the embedded
shrink loops. -/
inductive RunOut (α : Type) where
  | config (msg : String)
  | done (a : α)
  | fuelOut

/-- The iteration loop of `runModel`
(`for (iteration = 1; iteration <= runs; iteration++)`, embedded
structurally on the remaining count). -/
def runModelLoop {M S P E : Type} (undef : P) (spec : MSpec M S P E)
    (seed runs maxCommands maxShrinks fuel : Nat) :
    Nat → Nat → Nat → RunOut (Option (ModelFailure P E))
  | 0, _, _ => .done none
  | rem + 1, iteration, rng =>
    let (iterationSource, rng1) := forkRandomSource rng
    let out := executeIteration undef spec iterationSource maxCommands
    if out.result.failed then
      match shrinkSequence (fun c => (replaySequence spec c).1) maxShrinks fuel spec.commands
          out.steps out.result with
      | none => .fuelOut
      | some shrunk => .done (some (buildFailure spec.commands shrunk seed runs iteration))
    else runModelLoop undef spec seed runs maxCommands maxShrinks fuel rem (iteration + 1) rng1

/-- `runModel(spec, config)`: `validateSpec`, eager config normalization,
then the iteration loop. -/
def runModel {M S P E : Type} (fuel now : Nat) (undef : P) (spec : MSpec M S P E)
    (config : ModelConfig) : RunOut (Option (ModelFailure P E)) :=
  if spec.commands.length = 0 then .config "model spec requires at least one command"
  else
    match createRunState now config.toRunConfig with
    | .error e => .config e
    | .ok rs =>
      match normalizeMaxCommands config.maxCommands with
      | .error e => .config e
      | .ok maxCommands =>
        match normalizePositiveInt config.maxShrinks 1000 "maxShrinks" with
        | .error e => .config e
        | .ok maxShrinks =>
          runModelLoop undef spec rs.seed rs.runs maxCommands maxShrinks fuel rs.runs 1
            rs.randomSource

/-- `assertModel(spec, config)`: runs the model and rethrows the failure;
in the embedding the thrown error and the returned failure are the same
`RunOut`, so `assertModel` coincides with `runModel`. -/
def assertModel {M S P E : Type} (fuel now : Nat) (undef : P) (spec : MSpec M S P E)
    (config : ModelConfig) : RunOut (Option (ModelFailure P E)) :=
  runModel fuel now undef spec config


/-! ### Termination of the chunk-removal phase (claim C5) -/

theorem chunk_candidate_length {P : Type} (steps : List (MStep P)) (i chunkSize : Nat)
    (h : i + chunkSize ≤ steps.length) :
    (steps.take i ++ steps.drop (i + chunkSize)).length = steps.length - chunkSize := by
  simp only [List.length_append, List.length_take, List.length_drop]
  omega

/-- Structural facts about one inner scan: the sequence never grows; it
is untouched when no removal was kept; the removal flag is monotone; and
a pass that keeps a removal shrinks the sequence strictly (chunk size at
least 1). -/
theorem chunkInner_spec {P E : Type} (replay : List (MStep P) → ExecutionResult E)
    (maxShrinks : Nat) :
    ∀ fuel chunkSize i removedInPass st st1 rip1, 1 ≤ chunkSize →
      chunkInner replay maxShrinks fuel chunkSize i removedInPass st = some (st1, rip1) →
      st1.steps.length ≤ st.steps.length
      ∧ (rip1 = false → st1.steps = st.steps)
      ∧ (removedInPass = true → rip1 = true)
      ∧ (removedInPass = false → rip1 = true → st1.steps.length < st.steps.length) := by
  intro fuel
  induction fuel with
  | zero =>
    intro _ _ _ _ _ _ _ h
    exact absurd h (by simp [chunkInner])
  | succ f ih =>
    intro chunkSize i rip st st1 rip1 hcs h
    rw [chunkInner] at h
    by_cases hg : i + chunkSize ≤ st.steps.length ∧ st.shrinks < maxShrinks
    · rw [if_pos hg] at h
      by_cases hemp : (st.steps.take i ++ st.steps.drop (i + chunkSize)).length = 0
      · rw [if_pos hemp] at h
        exact ih _ _ _ _ _ _ hcs h
      · rw [if_neg hemp] at h
        have hclen := chunk_candidate_length st.steps i chunkSize hg.1
        by_cases hfail : (replay (st.steps.take i ++ st.steps.drop (i + chunkSize))).failed
        · rw [if_pos hfail] at h
          obtain ⟨h1, _, h3, _⟩ := ih _ _ _ _ _ _ hcs h
          have hlen1 : st1.steps.length ≤ st.steps.length - chunkSize := by
            simpa [hclen] using h1
          refine ⟨by omega, ?_, fun _ => h3 rfl, ?_⟩
          · intro hr
            exact absurd (h3 rfl) (by simp [hr])
          · intro _ _
            omega
        · rw [if_neg hfail] at h
          obtain ⟨h1, h2, h3, h4⟩ := ih _ _ _ _ _ _ hcs h
          exact ⟨h1, h2, h3, h4⟩
    · rw [if_neg hg] at h
      obtain ⟨rfl, rfl⟩ : st = st1 ∧ rip = rip1 := by
        cases h; exact ⟨rfl, rfl⟩
      refine ⟨le_refl _, fun _ => rfl, fun h => h, fun ha hb => ?_⟩
      rw [ha] at hb
      exact absurd hb (by simp)

/-- The inner scan needs at most `steps.length - i` iterations, hence
fuel `n + 1` whenever `steps.length ≤ i + n`. -/
theorem chunkInner_term {P E : Type} (replay : List (MStep P) → ExecutionResult E)
    (maxShrinks : Nat) :
    ∀ n chunkSize i removedInPass (st : ShrinkState P E), 1 ≤ chunkSize →
      st.steps.length ≤ i + n →
      ∃ r, chunkInner replay maxShrinks (n + 1) chunkSize i removedInPass st = some r := by
  intro n
  induction n with
  | zero =>
    intro cs i rip st hcs hlen
    rw [chunkInner]
    have hng : ¬ (i + cs ≤ st.steps.length ∧ st.shrinks < maxShrinks) := by
      intro hg
      omega
    rw [if_neg hng]
    exact ⟨_, rfl⟩
  | succ n ih =>
    intro cs i rip st hcs hlen
    rw [chunkInner]
    by_cases hg : i + cs ≤ st.steps.length ∧ st.shrinks < maxShrinks
    · rw [if_pos hg]
      by_cases hemp : (st.steps.take i ++ st.steps.drop (i + cs)).length = 0
      · rw [if_pos hemp]
        exact ih cs (i + 1) rip st hcs (by omega)
      · rw [if_neg hemp]
        have hclen := chunk_candidate_length st.steps i cs hg.1
        by_cases hfail : (replay (st.steps.take i ++ st.steps.drop (i + cs))).failed
        · rw [if_pos hfail]
          refine ih cs i true _ hcs ?_
          show (st.steps.take i ++ st.steps.drop (i + cs)).length ≤ i + n
          omega
        · rw [if_neg hfail]
          refine ih cs (i + 1) rip _ hcs ?_
          show st.steps.length ≤ i + 1 + n
          omega
    · rw [if_neg hg]
      exact ⟨_, rfl⟩

/-- Fuel is monotone for the inner scan. -/
theorem chunkInner_mono {P E : Type} (replay : List (MStep P) → ExecutionResult E)
    (maxShrinks : Nat) :
    ∀ f g chunkSize i removedInPass (st : ShrinkState P E) r, f ≤ g →
      chunkInner replay maxShrinks f chunkSize i removedInPass st = some r →
      chunkInner replay maxShrinks g chunkSize i removedInPass st = some r := by
  intro f
  induction f with
  | zero =>
    intro _ _ _ _ _ _ _ h
    exact absurd h (by simp [chunkInner])
  | succ f ih =>
    intro g cs i rip st r hfg h
    obtain ⟨g1, rfl⟩ : ∃ g1, g = g1 + 1 := ⟨g - 1, by omega⟩
    rw [chunkInner] at h ⊢
    by_cases hg : i + cs ≤ st.steps.length ∧ st.shrinks < maxShrinks
    · rw [if_pos hg] at h ⊢
      by_cases hemp : (st.steps.take i ++ st.steps.drop (i + cs)).length = 0
      · rw [if_pos hemp] at h ⊢
        exact ih g1 _ _ _ _ _ (by omega) h
      · rw [if_neg hemp] at h ⊢
        by_cases hfail : (replay (st.steps.take i ++ st.steps.drop (i + cs))).failed
        · rw [if_pos hfail] at h ⊢
          exact ih g1 _ _ _ _ _ (by omega) h
        · rw [if_neg hfail] at h ⊢
          exact ih g1 _ _ _ _ _ (by omega) h
    · rw [if_neg hg] at h ⊢
      exact h

/-- Fuel is monotone for the outer loop. -/
theorem chunkOuter_mono {P E : Type} (replay : List (MStep P) → ExecutionResult E)
    (maxShrinks : Nat) :
    ∀ f g chunkSize anyImproved (st : ShrinkState P E) r, f ≤ g →
      chunkOuter replay maxShrinks f chunkSize anyImproved st = some r →
      chunkOuter replay maxShrinks g chunkSize anyImproved st = some r := by
  intro f
  induction f with
  | zero =>
    intro _ _ _ _ _ _ h
    exact absurd h (by simp [chunkOuter])
  | succ f ih =>
    intro g cs ai st r hfg h
    obtain ⟨g1, rfl⟩ : ∃ g1, g = g1 + 1 := ⟨g - 1, by omega⟩
    rw [chunkOuter] at h ⊢
    by_cases hg : 1 ≤ cs ∧ st.shrinks < maxShrinks
    · rw [if_pos hg] at h ⊢
      cases hci : chunkInner replay maxShrinks f cs 0 false st with
      | none => rw [hci] at h; exact absurd h (by simp)
      | some p =>
        rw [hci] at h
        rw [chunkInner_mono replay maxShrinks f g1 cs 0 false st p (by omega) hci]
        exact ih g1 _ _ _ _ (by omega) h
    · rw [if_neg hg] at h ⊢
      exact h


/-- The outer loop terminates: some fuel always yields a result.  The
measure `(len + 2)² + chunkSize` drops across every pass: a kept removal
shrinks the sequence strictly (and the restarted chunk size is at most
the new length), a barren pass halves the chunk size. -/
theorem chunkOuter_term {P E : Type} (replay : List (MStep P) → ExecutionResult E)
    (maxShrinks : Nat) :
    ∀ n chunkSize anyImproved (st : ShrinkState P E),
      (st.steps.length + 2) * (st.steps.length + 2) + chunkSize ≤ n →
      ∃ fuel r, chunkOuter replay maxShrinks fuel chunkSize anyImproved st = some r := by
  intro n
  induction n with
  | zero =>
    intro cs ai st hn
    have h4 : 2 * 2 ≤ (st.steps.length + 2) * (st.steps.length + 2) :=
      Nat.mul_le_mul (by omega) (by omega)
    omega
  | succ n ih =>
    intro cs ai st hn
    by_cases hg : 1 ≤ cs ∧ st.shrinks < maxShrinks
    · obtain ⟨⟨st1, rip⟩, hci⟩ := chunkInner_term replay maxShrinks st.steps.length cs 0 false st
        hg.1 (by omega)
      obtain ⟨hle, hsame, -, hlt⟩ := chunkInner_spec replay maxShrinks _ _ _ _ _ _ _ hg.1 hci
      have hmeas : (st1.steps.length + 2) * (st1.steps.length + 2) +
          (if rip then st1.steps.length / 2 else cs / 2) ≤ n := by
        cases rip with
        | true =>
          have hl1 : st1.steps.length + 1 ≤ st.steps.length := hlt rfl rfl
          have k1 : (st1.steps.length + 2) * (st1.steps.length + 2)
              ≤ (st.steps.length + 1) * (st.steps.length + 1) :=
            Nat.mul_le_mul (by omega) (by omega)
          have k2 : (st.steps.length + 1) * (st.steps.length + 1) + 2 * st.steps.length + 3
              = (st.steps.length + 2) * (st.steps.length + 2) := by ring
          have k3 : st1.steps.length / 2 ≤ st.steps.length := by omega
          have hred : (if (true = true) then st1.steps.length / 2 else cs / 2)
              = st1.steps.length / 2 := if_pos rfl
          rw [hred]
          omega
        | false =>
          have hsame1 : st1.steps = st.steps := hsame rfl
          have k3 : cs / 2 + 1 ≤ cs := by omega
          have hred : (if (false = true) then st1.steps.length / 2 else cs / 2) = cs / 2 :=
            if_neg (by simp)
          rw [hred, hsame1]
          omega
      obtain ⟨fo, ro, hco⟩ := ih _ (ai || rip) st1 hmeas
      refine ⟨Nat.max (st.steps.length + 1) fo + 1, ro, ?_⟩
      rw [chunkOuter, if_pos hg]
      rw [chunkInner_mono replay maxShrinks (st.steps.length + 1)
        (Nat.max (st.steps.length + 1) fo) cs 0 false st (st1, rip) (Nat.le_max_left _ _) hci]
      exact chunkOuter_mono replay maxShrinks fo (Nat.max (st.steps.length + 1) fo) _ _ _ _
        (Nat.le_max_right _ _) hco
    · refine ⟨1, (st, ai), ?_⟩
      rw [chunkOuter, if_neg hg]


/-- C5: the delta-debugging chunk-removal phase terminates on every input
sequence, every replay oracle and every budget — some fuel always makes
the fuelled loop return, in particular also when no removal ever
reproduces the failure (the chunk size reaches 0). -/
theorem claim_c5_chunk_termination {P E : Type} (replay : List (MStep P) → ExecutionResult E)
    (maxShrinks : Nat) (st : ShrinkState P E) :
    ∃ fuel, (shrinkChunks replay maxShrinks fuel st).isSome = true := by
  obtain ⟨fuel, r, h⟩ := chunkOuter_term replay maxShrinks
    ((st.steps.length + 2) * (st.steps.length + 2) + st.steps.length / 2)
    (st.steps.length / 2) false st (le_refl _)
  refine ⟨fuel, ?_⟩
  rw [shrinkChunks, h]
  rfl

/-! ### Budget accounting (claim C4) -/

theorem chunkInner_shrinks {P E : Type} (replay : List (MStep P) → ExecutionResult E)
    (maxShrinks : Nat) :
    ∀ fuel chunkSize i removedInPass (st : ShrinkState P E) st1 rip1,
      st.shrinks ≤ maxShrinks →
      chunkInner replay maxShrinks fuel chunkSize i removedInPass st = some (st1, rip1) →
      st1.shrinks ≤ maxShrinks := by
  intro fuel
  induction fuel with
  | zero =>
    intro _ _ _ _ _ _ _ h
    exact absurd h (by simp [chunkInner])
  | succ f ih =>
    intro cs i rip st st1 rip1 hb h
    rw [chunkInner] at h
    by_cases hg : i + cs ≤ st.steps.length ∧ st.shrinks < maxShrinks
    · rw [if_pos hg] at h
      by_cases hemp : (st.steps.take i ++ st.steps.drop (i + cs)).length = 0
      · rw [if_pos hemp] at h
        exact ih _ _ _ _ _ _ hb h
      · rw [if_neg hemp] at h
        by_cases hfail : (replay (st.steps.take i ++ st.steps.drop (i + cs))).failed
        · rw [if_pos hfail] at h
          refine ih _ _ _ _ _ _ ?_ h
          show st.shrinks + 1 ≤ maxShrinks
          omega
        · rw [if_neg hfail] at h
          refine ih _ _ _ _ _ _ ?_ h
          show st.shrinks + 1 ≤ maxShrinks
          omega
    · rw [if_neg hg] at h
      cases h
      exact hb

theorem chunkOuter_shrinks {P E : Type} (replay : List (MStep P) → ExecutionResult E)
    (maxShrinks : Nat) :
    ∀ fuel chunkSize anyImproved (st : ShrinkState P E) st1 rip1,
      st.shrinks ≤ maxShrinks →
      chunkOuter replay maxShrinks fuel chunkSize anyImproved st = some (st1, rip1) →
      st1.shrinks ≤ maxShrinks := by
  intro fuel
  induction fuel with
  | zero =>
    intro _ _ _ _ _ _ h
    exact absurd h (by simp [chunkOuter])
  | succ f ih =>
    intro cs ai st st1 rip1 hb h
    rw [chunkOuter] at h
    by_cases hg : 1 ≤ cs ∧ st.shrinks < maxShrinks
    · rw [if_pos hg] at h
      cases hci : chunkInner replay maxShrinks f cs 0 false st with
      | none => rw [hci] at h; exact absurd h (by simp)
      | some p =>
        rw [hci] at h
        exact ih _ _ _ _ _ (chunkInner_shrinks replay maxShrinks f cs 0 false st p.1 p.2 hb
          (by rw [hci])) h
    · rw [if_neg hg] at h
      cases h
      exact hb

theorem tryCands_shrinks {P E : Type} (replay : List (MStep P) → ExecutionResult E)
    (maxShrinks i : Nat) :
    ∀ cands (st : ShrinkState P E), st.shrinks ≤ maxShrinks →
      (tryCands replay maxShrinks i cands st).1.shrinks ≤ maxShrinks := by
  intro cands
  induction cands with
  | nil => intro st hb; exact hb
  | cons c rest ih =>
    intro st hb
    rw [tryCands]
    by_cases hfull : maxShrinks ≤ st.shrinks
    · rw [if_pos hfull]; exact hb
    · rw [if_neg hfull]
      by_cases hfail : (replay (replaceParamAt st.steps i c)).failed
      · rw [if_pos hfail]
        show st.shrinks + 1 ≤ maxShrinks
        omega
      · rw [if_neg hfail]
        refine ih _ ?_
        show st.shrinks + 1 ≤ maxShrinks
        omega

/-- A barren candidate scan leaves the step list untouched (needed to
relate scan passes). -/
theorem tryCands_steps {P E : Type} (replay : List (MStep P) → ExecutionResult E)
    (maxShrinks i : Nat) :
    ∀ cands (st : ShrinkState P E), (tryCands replay maxShrinks i cands st).2 = false →
      (tryCands replay maxShrinks i cands st).1.steps = st.steps := by
  intro cands
  induction cands with
  | nil => intro st _; rfl
  | cons c rest ih =>
    intro st hni
    rw [tryCands] at hni ⊢
    by_cases hfull : maxShrinks ≤ st.shrinks
    · rw [if_pos hfull] at hni ⊢
    · rw [if_neg hfull] at hni ⊢
      by_cases hfail : (replay (replaceParamAt st.steps i c)).failed
      · rw [if_pos hfail] at hni
        exact absurd hni (by simp)
      · rw [if_neg hfail] at hni ⊢
        exact ih _ hni

theorem paramScan_shrinks {M S P E : Type} (replay : List (MStep P) → ExecutionResult E)
    (maxShrinks : Nat) (commands : List (MCommand M S P E)) :
    ∀ fuel i (st : ShrinkState P E), st.shrinks ≤ maxShrinks →
      (paramScan replay maxShrinks commands fuel i st).1.shrinks ≤ maxShrinks := by
  intro fuel
  induction fuel with
  | zero => intro i st hb; exact hb
  | succ f ih =>
    intro i st hb
    rw [paramScan]
    by_cases hg : i < st.steps.length ∧ st.shrinks < maxShrinks
    · rw [if_pos hg]
      rcases hstep : st.steps.get? i with - | step
      · exact hb
      · dsimp only
        rcases harb : (commands.get? step.commandIndex).bind (fun cmd => cmd.arbitrary)
          with - | arbIn
        · dsimp only
          exact ih _ _ hb
        · dsimp only
          have htc := tryCands_shrinks replay maxShrinks i
            ((normalizeArbitrary arbIn).shrink step.param) st hb
          by_cases himp : (tryCands replay maxShrinks i
              ((normalizeArbitrary arbIn).shrink step.param) st).2 = true
          · rw [if_pos himp]
            exact htc
          · rw [if_neg himp]
            exact ih _ _ htc
    · rw [if_neg hg]
      exact hb

theorem shrinkParamsGo_shrinks {M S P E : Type} (replay : List (MStep P) → ExecutionResult E)
    (maxShrinks : Nat) (commands : List (MCommand M S P E)) :
    ∀ fuel anyImproved (st : ShrinkState P E) st1 imp1, st.shrinks ≤ maxShrinks →
      shrinkParamsGo replay maxShrinks commands fuel anyImproved st = some (st1, imp1) →
      st1.shrinks ≤ maxShrinks := by
  intro fuel
  induction fuel with
  | zero =>
    intro _ _ _ _ _ h
    exact absurd h (by simp [shrinkParamsGo])
  | succ f ih =>
    intro ai st st1 imp1 hb h
    rw [shrinkParamsGo] at h
    by_cases hg : st.shrinks < maxShrinks
    · rw [if_pos hg] at h
      have hps := paramScan_shrinks replay maxShrinks commands st.steps.length 0 st hb
      rcases hscan : paramScan replay maxShrinks commands st.steps.length 0 st with ⟨stA, improved⟩
      rw [hscan] at h hps
      dsimp only at h
      by_cases himp : improved = true
      · rw [if_pos himp] at h
        exact ih _ _ _ _ hps h
      · rw [if_neg himp] at h
        cases h
        exact hps
    · rw [if_neg hg] at h
      cases h
      exact hb

theorem shrinkSequenceGo_shrinks {M S P E : Type} (replay : List (MStep P) → ExecutionResult E)
    (maxShrinks : Nat) (commands : List (MCommand M S P E)) :
    ∀ fuel (st : ShrinkState P E) st1, st.shrinks ≤ maxShrinks →
      shrinkSequenceGo replay maxShrinks commands fuel st = some st1 →
      st1.shrinks ≤ maxShrinks := by
  intro fuel
  induction fuel with
  | zero =>
    intro _ _ _ h
    exact absurd h (by simp [shrinkSequenceGo])
  | succ f ih =>
    intro st st1 hb h
    rw [shrinkSequenceGo] at h
    by_cases hg : st.shrinks < maxShrinks
    · rw [if_pos hg] at h
      rcases hch : shrinkChunks replay maxShrinks f st with - | ⟨stc, impc⟩
      · rw [hch] at h
        exact absurd h (by simp)
      · rw [hch] at h
        dsimp only at h
        have hb1 : stc.shrinks ≤ maxShrinks :=
          chunkOuter_shrinks replay maxShrinks f (st.steps.length / 2) false st stc impc hb
            (by rw [← shrinkChunks, hch])
        rcases hpg : shrinkParamsGo replay maxShrinks commands f false stc with - | ⟨stp, impp⟩
        · rw [hpg] at h
          exact absurd h (by simp)
        · rw [hpg] at h
          dsimp only at h
          have hb2 : stp.shrinks ≤ maxShrinks :=
            shrinkParamsGo_shrinks replay maxShrinks commands f false stc stp impp hb1 hpg
          by_cases himp : (impc || impp) = true
          · rw [if_pos himp] at h
            exact ih _ _ hb2 h
          · rw [if_neg himp] at h
            cases h
            exact hb2
    · rw [if_neg hg] at h
      cases h
      exact hb

/-- Every failure reported by the model-run loop respects the budget. -/
theorem runModelLoop_shrinks {M S P E : Type} (undef : P) (spec : MSpec M S P E)
    (seed runs maxCommands maxShrinks fuel : Nat) :
    ∀ rem iteration rng (f : ModelFailure P E),
      runModelLoop undef spec seed runs maxCommands maxShrinks fuel rem iteration rng
        = .done (some f) →
      f.shrinks ≤ maxShrinks := by
  intro rem
  induction rem with
  | zero =>
    intro _ _ _ h
    exact absurd h (by simp [runModelLoop])
  | succ r ih =>
    intro iteration rng f h
    rw [runModelLoop] at h
    rcases hfork : forkRandomSource rng with ⟨isrc, rng1⟩
    rw [hfork] at h
    dsimp only at h
    by_cases hfail : (executeIteration undef spec isrc maxCommands).result.failed = true
    · rw [if_pos hfail] at h
      cases hsh : shrinkSequence (fun c => (replaySequence spec c).1) maxShrinks fuel
          spec.commands (executeIteration undef spec isrc maxCommands).steps
          (executeIteration undef spec isrc maxCommands).result with
      | none => rw [hsh] at h; exact absurd h (by simp)
      | some shrunk =>
        rw [hsh] at h
        have hb := shrinkSequenceGo_shrinks (fun c => (replaySequence spec c).1) maxShrinks
          spec.commands fuel
          ⟨(executeIteration undef spec isrc maxCommands).steps,
            (executeIteration undef spec isrc maxCommands).result.failedStep, 0,
            (executeIteration undef spec isrc maxCommands).result.error⟩ shrunk
          (by show (0 : Nat) ≤ maxShrinks; omega)
          (by rw [← shrinkSequence]; exact hsh)
        cases h
        exact hb
    · rw [if_neg hfail] at h
      exact ih _ _ _ h


/-- Any failure reported by `runProperty` respects the normalized budget. -/
theorem runProperty_shrinks_le {T : Type} (now : Nat) (input : ArbInput T) (fails : T → Bool)
    (score : T → Nat) (falsy : T → Bool) (config : PropertyConfig) (f : PropertyFailure T)
    (ms : Nat) (h : runProperty now input fails score falsy config = .ok (some f))
    (hms : normalizeMaxShrinks config.maxShrinks = .ok ms) :
    f.shrinks ≤ ms := by
  rw [runProperty] at h
  cases hcs : createRunState now config.toRunConfig with
  | error e => rw [hcs] at h; exact Except.noConfusion h
  | ok rs =>
    rw [hcs, hms] at h
    dsimp only at h
    rw [Except.ok.injEq] at h
    obtain ⟨hseed, hrand, -⟩ := createRunState_ok now config.toRunConfig rs hcs
    rw [hrand] at h
    have hidx := runPropertyLoop_eq_indexed (normalizeArbitrary input) fails score falsy
      rs.seed rs.runs ms (createSeededRandomSource (normalizeSeed now config.seed)) rs.runs 0
    simp only [Nat.zero_add, parentState] at hidx
    rw [hidx] at h
    obtain ⟨-, -, -, hshr, -⟩ := runPropertyIndexedLoop_some _ fails score falsy rs.seed rs.runs
      ms _ rs.runs 1 f h
    rw [hshr]
    exact shrinkUntilFixedPoint_le _ fails score falsy _ ms

/-- C4: budget bounds.  Every shrink attempt of the property shrink loop
and every replay attempt of the sequence shrinker consumes one budget
unit and the loops stop at exhaustion, so every `PropertyFailure`
reported by `runProperty` and every `ModelFailure` reported by `runModel`
carries `shrinks ≤ maxShrinks`. -/
theorem claim_c4_budget :
    (∀ (T : Type) (now : Nat) (input : ArbInput T) (fails : T → Bool) (score : T → Nat)
        (falsy : T → Bool) (config : PropertyConfig) (f : PropertyFailure T) (ms : Nat),
      runProperty now input fails score falsy config = .ok (some f) →
      normalizeMaxShrinks config.maxShrinks = .ok ms → f.shrinks ≤ ms)
    ∧ (∀ (M S P E : Type) (fuel now : Nat) (undef : P) (spec : MSpec M S P E)
        (config : ModelConfig) (f : ModelFailure P E) (ms : Nat),
      runModel fuel now undef spec config = .done (some f) →
      normalizePositiveInt config.maxShrinks 1000 "maxShrinks" = .ok ms → f.shrinks ≤ ms) := by
  constructor
  · intro T now input fails score falsy config f ms h hms
    exact runProperty_shrinks_le now input fails score falsy config f ms h hms
  · intro M S P E fuel now undef spec config f ms h hms
    rw [runModel] at h
    by_cases hempty : spec.commands.length = 0
    · rw [if_pos hempty] at h
      exact RunOut.noConfusion h
    · rw [if_neg hempty] at h
      cases hcs : createRunState now config.toRunConfig with
      | error e => rw [hcs] at h; exact RunOut.noConfusion h
      | ok rs =>
        rw [hcs] at h
        cases hmc : normalizeMaxCommands config.maxCommands with
        | error e => rw [hmc] at h; exact RunOut.noConfusion h
        | ok maxCommands =>
          rw [hmc, hms] at h
          dsimp only at h
          exact runModelLoop_shrinks undef spec rs.seed rs.runs maxCommands ms fuel rs.runs 1
            rs.randomSource f h

/-- A minimal concrete command whose check always fails (used only by the
concrete witnesses below). -/
def demoFailCommand : MCommand Nat Nat Nat Unit :=
  ⟨"always-fails", none, none,
    fun s m _ => ((s, m), none),
    fun s m _ => ((s, m), .ok (some false))⟩

/-- A minimal concrete model spec around `demoFailCommand`. -/
def demoSpec : MSpec Nat Nat Nat Unit :=
  ⟨0, 0, none, [demoFailCommand]⟩

/-- `demoSpec` with a configurable teardown. -/
def demoSpecTd (td : Nat → Except Unit Unit) : MSpec Nat Nat Nat Unit :=
  ⟨0, 0, some td, [demoFailCommand]⟩

/-- A teardown that always throws. -/
def demoThrowTd : Nat → Except Unit Unit := fun _ => .error ()


/-- C4 witness: the theorem applied to a concrete failing property run
(empty shrinker: 0 shrinks ≤ 1000) and a concrete failing model run
(0 shrinks ≤ 1000). -/
theorem claim_c4_budget_witness :
    (⟨2, 1, 1, 0, (0 : Int)⟩ : PropertyFailure Int).shrinks ≤ 1000
    ∧ (⟨1, 1, 1, 0, [("always-fails", 0)], 0, none⟩ : ModelFailure Nat Unit).shrinks ≤ 1000 :=
  ⟨claim_c4_budget.1 Int 0 (.genOnly (fun s => ((0 : Int), s))) (fun _ => true) Int.natAbs
      (fun v => v == 0) { seed := some (.rat 2), runs := some (.rat 1) } ⟨2, 1, 1, 0, 0⟩ 1000
      rfl rfl,
    claim_c4_budget.2 Nat Nat Nat Unit 2 0 0 demoSpec
      { seed := some (.rat 1), runs := some (.rat 1), maxCommands := some (.rat 1) }
      ⟨1, 1, 1, 0, [("always-fails", 0)], 0, none⟩ 1000 rfl rfl⟩

/-! ### Eager config validation (claim C8) -/

/-- The shared failure of every positive-integer normalizer on an invalid
value (non-finite, non-positive, or non-integral). -/
theorem normalize_bad (bad : JsNum)
    (h : (!bad.isFinite || bad.leZero || !bad.isInteger) = true) :
    normalizeRuns (some bad) = .error "runs must be a positive integer"
    ∧ normalizeMaxShrinks (some bad) = .error "maxShrinks must be a positive integer"
    ∧ normalizeMaxCommands (some bad) = .error "maxCommands must be a positive integer"
    ∧ normalizePositiveInt (some bad) 1000 "maxShrinks"
      = .error "maxShrinks must be a positive integer" := by
  refine ⟨?_, ?_, ?_, ?_⟩ <;>
    simp [normalizeRuns, normalizeMaxShrinks, normalizeMaxCommands, normalizePositiveInt,
      Option.getD, h]

/-- C8: invalid run configuration is rejected eagerly, for every
arbitrary and predicate alike (hence before any generation and with no
other effect on the result): any non-finite, non-positive or non-integral
`runs` (such as 0, -1, 1.5, NaN) makes both runners throw the `runs`
range error, and likewise `maxShrinks` and `maxCommands` under
otherwise-valid configs. -/
theorem claim_c8_eager_validation :
    (∀ (T : Type) (now : Nat) (input : ArbInput T) (fails : T → Bool) (score : T → Nat)
        (falsy : T → Bool) (seedv msv : Option JsNum) (bad : JsNum),
      (!bad.isFinite || bad.leZero || !bad.isInteger) = true →
      runProperty now input fails score falsy ⟨⟨seedv, some bad⟩, msv⟩
        = .error "runs must be a positive integer")
    ∧ (∀ (T : Type) (now : Nat) (input : ArbInput T) (fails : T → Bool) (score : T → Nat)
        (falsy : T → Bool) (seedv runsv : Option JsNum) (r : Nat) (bad : JsNum),
      normalizeRuns runsv = .ok r →
      (!bad.isFinite || bad.leZero || !bad.isInteger) = true →
      runProperty now input fails score falsy ⟨⟨seedv, runsv⟩, some bad⟩
        = .error "maxShrinks must be a positive integer")
    ∧ (∀ (M S P E : Type) (fuel now : Nat) (undef : P) (spec : MSpec M S P E)
        (seedv mcv msv : Option JsNum) (bad : JsNum),
      spec.commands.length ≠ 0 →
      (!bad.isFinite || bad.leZero || !bad.isInteger) = true →
      runModel fuel now undef spec ⟨⟨seedv, some bad⟩, mcv, msv⟩
        = .config "runs must be a positive integer")
    ∧ (∀ (M S P E : Type) (fuel now : Nat) (undef : P) (spec : MSpec M S P E)
        (seedv runsv msv : Option JsNum) (r : Nat) (bad : JsNum),
      spec.commands.length ≠ 0 → normalizeRuns runsv = .ok r →
      (!bad.isFinite || bad.leZero || !bad.isInteger) = true →
      runModel fuel now undef spec ⟨⟨seedv, runsv⟩, some bad, msv⟩
        = .config "maxCommands must be a positive integer")
    ∧ (∀ (M S P E : Type) (fuel now : Nat) (undef : P) (spec : MSpec M S P E)
        (seedv runsv mcv : Option JsNum) (r mc : Nat) (bad : JsNum),
      spec.commands.length ≠ 0 → normalizeRuns runsv = .ok r →
      normalizeMaxCommands mcv = .ok mc →
      (!bad.isFinite || bad.leZero || !bad.isInteger) = true →
      runModel fuel now undef spec ⟨⟨seedv, runsv⟩, mcv, some bad⟩
        = .config "maxShrinks must be a positive integer") := by
  refine ⟨?_, ?_, ?_, ?_, ?_⟩
  · intro T now input fails score falsy seedv msv bad hbad
    have hr := (normalize_bad bad hbad).1
    rw [runProperty]
    have hcs : createRunState now (⟨⟨seedv, some bad⟩, msv⟩ : PropertyConfig).toRunConfig
        = .error "runs must be a positive integer" := by
      rw [createRunState]
      show (match normalizeRuns (some bad) with
        | .error e => (.error e : Except String RunState)
        | .ok runs => .ok ⟨runs, normalizeSeed now seedv, createSeededRandomSource
            (normalizeSeed now seedv)⟩) = _
      rw [hr]
    rw [hcs]
  · intro T now input fails score falsy seedv runsv r bad hruns hbad
    have hms := (normalize_bad bad hbad).2.1
    rw [runProperty]
    have hcs : createRunState now (⟨⟨seedv, runsv⟩, some bad⟩ : PropertyConfig).toRunConfig
        = .ok ⟨r, normalizeSeed now seedv, createSeededRandomSource (normalizeSeed now seedv)⟩ := by
      rw [createRunState]
      show (match normalizeRuns runsv with
        | .error e => (.error e : Except String RunState)
        | .ok runs => .ok ⟨runs, normalizeSeed now seedv, createSeededRandomSource
            (normalizeSeed now seedv)⟩) = _
      rw [hruns]
    rw [hcs]
    dsimp only
    rw [hms]
  · intro M S P E fuel now undef spec seedv mcv msv bad hcmds hbad
    have hr := (normalize_bad bad hbad).1
    rw [runModel, if_neg hcmds]
    have hcs : createRunState now (⟨⟨seedv, some bad⟩, mcv, msv⟩ : ModelConfig).toRunConfig
        = .error "runs must be a positive integer" := by
      rw [createRunState]
      show (match normalizeRuns (some bad) with
        | .error e => (.error e : Except String RunState)
        | .ok runs => .ok ⟨runs, normalizeSeed now seedv, createSeededRandomSource
            (normalizeSeed now seedv)⟩) = _
      rw [hr]
    rw [hcs]
  · intro M S P E fuel now undef spec seedv runsv msv r bad hcmds hruns hbad
    have hmc := (normalize_bad bad hbad).2.2.1
    rw [runModel, if_neg hcmds]
    have hcs : createRunState now (⟨⟨seedv, runsv⟩, some bad, msv⟩ : ModelConfig).toRunConfig
        = .ok ⟨r, normalizeSeed now seedv, createSeededRandomSource (normalizeSeed now seedv)⟩ := by
      rw [createRunState]
      show (match normalizeRuns runsv with
        | .error e => (.error e : Except String RunState)
        | .ok runs => .ok ⟨runs, normalizeSeed now seedv, createSeededRandomSource
            (normalizeSeed now seedv)⟩) = _
      rw [hruns]
    rw [hcs]
    dsimp only
    rw [hmc]
  · intro M S P E fuel now undef spec seedv runsv mcv r mc bad hcmds hruns hmcv hbad
    have hms := (normalize_bad bad hbad).2.2.2
    rw [runModel, if_neg hcmds]
    have hcs : createRunState now (⟨⟨seedv, runsv⟩, mcv, some bad⟩ : ModelConfig).toRunConfig
        = .ok ⟨r, normalizeSeed now seedv, createSeededRandomSource (normalizeSeed now seedv)⟩ := by
      rw [createRunState]
      show (match normalizeRuns runsv with
        | .error e => (.error e : Except String RunState)
        | .ok runs => .ok ⟨runs, normalizeSeed now seedv, createSeededRandomSource
            (normalizeSeed now seedv)⟩) = _
      rw [hruns]
    rw [hcs]
    dsimp only
    rw [hmcv]
    dsimp only
    rw [hms]

/-- C8 witness: the theorem applied at `runs = 0`, `-1`, `1.5` and `NaN`
(property runner), at `maxShrinks = 0`, and at the model runner with
`runs = 0`, `maxCommands = 0` and `maxShrinks = 1.5`. -/
theorem claim_c8_eager_validation_witness :
    runProperty 0 (.arb (genInt 1 100)) (fun _ => true) Int.natAbs (fun v => v == 0)
      ⟨⟨none, some (.rat 0)⟩, none⟩ = .error "runs must be a positive integer"
    ∧ runProperty 0 (.arb (genInt 1 100)) (fun _ => true) Int.natAbs (fun v => v == 0)
      ⟨⟨none, some (.rat (-1))⟩, none⟩ = .error "runs must be a positive integer"
    ∧ runProperty 0 (.arb (genInt 1 100)) (fun _ => true) Int.natAbs (fun v => v == 0)
      ⟨⟨none, some (.rat (mkRat 3 2))⟩, none⟩ = .error "runs must be a positive integer"
    ∧ runProperty 0 (.arb (genInt 1 100)) (fun _ => true) Int.natAbs (fun v => v == 0)
      ⟨⟨none, some .nan⟩, none⟩ = .error "runs must be a positive integer"
    ∧ runProperty 0 (.arb (genInt 1 100)) (fun _ => true) Int.natAbs (fun v => v == 0)
      ⟨⟨none, none⟩, some (.rat 0)⟩ = .error "maxShrinks must be a positive integer"
    ∧ runModel 2 0 0 demoSpec ⟨⟨none, some (.rat 0)⟩, none, none⟩
      = .config "runs must be a positive integer"
    ∧ runModel 2 0 0 demoSpec ⟨⟨none, none⟩, some (.rat 0), none⟩
      = .config "maxCommands must be a positive integer"
    ∧ runModel 2 0 0 demoSpec ⟨⟨none, none⟩, none, some (.rat (mkRat 3 2))⟩
      = .config "maxShrinks must be a positive integer" :=
  ⟨claim_c8_eager_validation.1 Int 0 (.arb (genInt 1 100)) (fun _ => true) Int.natAbs
      (fun v => v == 0) none none (.rat 0) (by decide),
    claim_c8_eager_validation.1 Int 0 (.arb (genInt 1 100)) (fun _ => true) Int.natAbs
      (fun v => v == 0) none none (.rat (-1)) (by decide),
    claim_c8_eager_validation.1 Int 0 (.arb (genInt 1 100)) (fun _ => true) Int.natAbs
      (fun v => v == 0) none none (.rat (mkRat 3 2)) (by decide),
    claim_c8_eager_validation.1 Int 0 (.arb (genInt 1 100)) (fun _ => true) Int.natAbs
      (fun v => v == 0) none none .nan (by decide),
    claim_c8_eager_validation.2.1 Int 0 (.arb (genInt 1 100)) (fun _ => true) Int.natAbs
      (fun v => v == 0) none none 100 (.rat 0) rfl (by decide),
    claim_c8_eager_validation.2.2.1 Nat Nat Nat Unit 2 0 0 demoSpec none none none (.rat 0)
      (by decide) (by decide),
    claim_c8_eager_validation.2.2.2.1 Nat Nat Nat Unit 2 0 0 demoSpec none none none 100
      (.rat 0) (by decide) rfl (by decide),
    claim_c8_eager_validation.2.2.2.2 Nat Nat Nat Unit 2 0 0 demoSpec none none none 100 20
      (.rat (mkRat 3 2)) (by decide) rfl rfl (by decide)⟩


/-! ### Teardown behaviour (claim C9) -/

/-- The observable parts of one iteration depend only on the spec's
state, setup and commands — never on the teardown function. -/
theorem executeIteration_congr {M S P E : Type} (undef : P) (spec1 spec2 : MSpec M S P E)
    (hst : spec1.state = spec2.state) (hsu : spec1.setup = spec2.setup)
    (hcmd : spec1.commands = spec2.commands) (rng mc : Nat) :
    (executeIteration undef spec1 rng mc).steps = (executeIteration undef spec2 rng mc).steps
    ∧ (executeIteration undef spec1 rng mc).result = (executeIteration undef spec2 rng mc).result
    ∧ (executeIteration undef spec1 rng mc).system
      = (executeIteration undef spec2 rng mc).system := by
  rw [executeIteration, executeIteration, hst, hsu, hcmd]
  dsimp only [draw]
  rcases hE : execLoop undef spec2.commands
      ((randomIntVal (xorshift32 rng) 1 (mc : Int)).toNat) [] spec2.setup spec2.state
      (xorshift32 rng) with ⟨steps, result, fs, rng2⟩
  exact ⟨rfl, rfl, rfl⟩

/-- The replay result depends only on the spec's state, setup and
commands — never on the teardown function. -/
theorem replaySequence_fst_congr {M S P E : Type} (spec1 spec2 : MSpec M S P E)
    (hst : spec1.state = spec2.state) (hsu : spec1.setup = spec2.setup)
    (hcmd : spec1.commands = spec2.commands) (steps : List (MStep P)) :
    (replaySequence spec1 steps).1 = (replaySequence spec2 steps).1 := by
  rw [replaySequence, replaySequence, hst, hsu, hcmd]

/-- The model-run loop is unaffected by the teardown function. -/
theorem runModelLoop_teardown {M S P E : Type} (undef : P) (spec : MSpec M S P E)
    (td : Option (S → Except E Unit)) (seed runs mc ms fuel : Nat) :
    ∀ rem iteration rng,
      runModelLoop undef { spec with teardown := td } seed runs mc ms fuel rem iteration rng
        = runModelLoop undef spec seed runs mc ms fuel rem iteration rng := by
  intro rem
  induction rem with
  | zero => intro _ _; rfl
  | succ r ih =>
    intro iteration rng
    rw [runModelLoop, runModelLoop]
    rcases hfork : forkRandomSource rng with ⟨isrc, rng1⟩
    dsimp only
    obtain ⟨hsteps, hres, -⟩ :=
      executeIteration_congr undef { spec with teardown := td } spec rfl rfl rfl isrc mc
    have hrep : (fun c => (replaySequence { spec with teardown := td } c).1)
        = fun c => (replaySequence spec c).1 :=
      funext fun c => replaySequence_fst_congr { spec with teardown := td } spec rfl rfl rfl c
    have hcmd : ({ spec with teardown := td } : MSpec M S P E).commands = spec.commands := rfl
    rw [hsteps, hres, hrep, hcmd, ih]

/-- One iteration always invokes a provided teardown on the (final)
system it created, also when the iteration failed early: the recorded
`finally`-block invocation is exactly the teardown applied to the
iteration's final system. -/
theorem executeIteration_td {M S P E : Type} (undef : P) (spec : MSpec M S P E) (rng mc : Nat)
    (td : S → Except E Unit) (h : spec.teardown = some td) :
    (executeIteration undef spec rng mc).tdOutcome
      = some (td (executeIteration undef spec rng mc).system) := by
  rw [executeIteration]
  dsimp only [draw]
  rcases hE : execLoop undef spec.commands
      ((randomIntVal (xorshift32 rng) 1 (mc : Int)).toNat) [] spec.setup spec.state
      (xorshift32 rng) with ⟨steps, result, fs, rng2⟩
  dsimp only
  rw [h]
  rfl

/-- Every replay invokes a provided teardown on the system it created. -/
theorem replaySequence_td {M S P E : Type} (spec : MSpec M S P E) (steps : List (MStep P))
    (td : S → Except E Unit) (h : spec.teardown = some td) :
    (replaySequence spec steps).2.2 = some (td (replaySequence spec steps).2.1) := by
  rw [replaySequence]
  rcases replayLoop spec.commands steps 0 spec.setup spec.state with ⟨r, fs⟩
  dsimp only
  rw [h]
  rfl

/-- C9: teardown always runs and its errors are swallowed.  A provided
teardown is invoked on the iteration's (resp. replay's) final system,
including on early failure — its recorded `finally` invocation is exactly
`td` applied to that system, for a throwing `td` as much as any other —
and no teardown error ever propagates out of `runModel` or `assertModel`
or alters the reported result: both are invariant under replacing the
teardown function arbitrarily. -/
theorem claim_c9_teardown :
    (∀ (M S P E : Type) (undef : P) (spec : MSpec M S P E) (rng mc : Nat)
        (td : S → Except E Unit), spec.teardown = some td →
      (executeIteration undef spec rng mc).tdOutcome
        = some (td (executeIteration undef spec rng mc).system))
    ∧ (∀ (M S P E : Type) (spec : MSpec M S P E) (steps : List (MStep P))
        (td : S → Except E Unit), spec.teardown = some td →
      (replaySequence spec steps).2.2 = some (td (replaySequence spec steps).2.1))
    ∧ (∀ (M S P E : Type) (fuel now : Nat) (undef : P) (spec : MSpec M S P E)
        (td1 td2 : Option (S → Except E Unit)) (config : ModelConfig),
      runModel fuel now undef { spec with teardown := td1 } config
        = runModel fuel now undef { spec with teardown := td2 } config
      ∧ assertModel fuel now undef { spec with teardown := td1 } config
        = assertModel fuel now undef { spec with teardown := td2 } config) := by
  refine ⟨?_, ?_, ?_⟩
  · intro M S P E undef spec rng mc td h
    exact executeIteration_td undef spec rng mc td h
  · intro M S P E spec steps td h
    exact replaySequence_td spec steps td h
  · intro M S P E fuel now undef spec td1 td2 config
    have key : runModel fuel now undef { spec with teardown := td1 } config
        = runModel fuel now undef { spec with teardown := td2 } config := by
      rw [runModel, runModel]
      have h1 : ({ spec with teardown := td1 } : MSpec M S P E).commands = spec.commands := rfl
      have h2 : ({ spec with teardown := td2 } : MSpec M S P E).commands = spec.commands := rfl
      rw [h1, h2]
      by_cases hempty : spec.commands.length = 0
      · rw [if_pos hempty, if_pos hempty]
      · rw [if_neg hempty, if_neg hempty]
        cases createRunState now config.toRunConfig with
        | error e => rfl
        | ok rs =>
          cases normalizeMaxCommands config.maxCommands with
          | error e => rfl
          | ok mc =>
            cases normalizePositiveInt config.maxShrinks 1000 "maxShrinks" with
            | error e => rfl
            | ok ms =>
              dsimp only
              rw [runModelLoop_teardown undef spec td1 rs.seed rs.runs mc ms fuel rs.runs 1
                rs.randomSource]
              rw [runModelLoop_teardown undef spec td2 rs.seed rs.runs mc ms fuel rs.runs 1
                rs.randomSource]
    exact ⟨key, key⟩

/-- C9 witness: the theorem applied to a concrete spec with an
always-throwing teardown. -/
theorem claim_c9_teardown_witness :
    (executeIteration 0 (demoSpecTd demoThrowTd) 1 1).tdOutcome
      = some (demoThrowTd (executeIteration 0 (demoSpecTd demoThrowTd) 1 1).system)
    ∧ (replaySequence (demoSpecTd demoThrowTd) [⟨0, 0⟩]).2.2
      = some (demoThrowTd (replaySequence (demoSpecTd demoThrowTd) [⟨0, 0⟩]).2.1)
    ∧ runModel 2 0 0 { demoSpec with teardown := some demoThrowTd }
        { seed := some (.rat 1), runs := some (.rat 1), maxCommands := some (.rat 1) }
      = runModel 2 0 0 { demoSpec with teardown := none }
        { seed := some (.rat 1), runs := some (.rat 1), maxCommands := some (.rat 1) } :=
  ⟨claim_c9_teardown.1 Nat Nat Nat Unit 0 (demoSpecTd demoThrowTd) 1 1 demoThrowTd rfl,
    claim_c9_teardown.2.1 Nat Nat Nat Unit (demoSpecTd demoThrowTd) [⟨0, 0⟩] demoThrowTd rfl,
    (claim_c9_teardown.2.2 Nat Nat Nat Unit 2 0 0 demoSpec (some demoThrowTd) none
      { seed := some (.rat 1), runs := some (.rat 1), maxCommands := some (.rat 1) }).1⟩

end Typefuzz
